import Mathlib

/-!
# A verification development for the `srcscan` source-unit scanner

This file gives a shallow embedding, in Lean, of the scan-and-classify engine
of the `srcscan` Go repository (files `srcscan.go`, `profiles.go`, `unit.go`,
`util.go`), and proves properties of that embedding.

Modelling conventions:

* Filesystems are finite trees (`FSNode`): a regular file is a named leaf, a
  directory has a name, a read-error flag (modelling a directory whose
  contents cannot be listed, e.g. permission denied) and a list of entries.
  Directory listings are taken in the order the entries appear; Go's
  `filepath.Walk` visits entries in lexical order, so concrete example trees
  below list entries lexically.
* Paths are lists of segments.  A path string joins segments with `"/"`
  (`joinPath`), matching `filepath.ToSlash` output.  Go's byte-level string
  operations (`strings.HasSuffix`, `strings.Split`) are modelled on the
  character lists underlying Lean strings.
* `hasSubdir` (util.go) is modelled on canonical paths: `filepath.Clean` is
  the identity on segment lists and `filepath.EvalSymlinks` is the identity
  in a symlink-free filesystem, so the function reduces to a proper-prefix
  test, which is exactly what the remaining Go code computes.
* The external Go build-info provider (`build.Context.ImportDir`) is an
  opaque parameter: `readGoPackage` receives the provider's resulting
  package record and transforms it exactly as unit.go does.  Likewise the
  raw bytes of a `package.json` manifest are supplied by an environment
  function, since the tree model does not carry file contents.
* JSON serialization (encoding/json) is modelled by an explicit `Json` value
  type; struct marshalling follows the Go field tags (`omitempty` fields are
  omitted exactly when empty, `json.RawMessage` bytes pass through
  unchanged), and unmarshalling reads fields by key with missing keys
  decoding to zero values, as encoding/json does.
-/

namespace Srcscan

/-! ## Path and string utilities (util.go) -/

/-- util.go `contains`: list membership by string equality. -/
def contains (list : List String) (str : String) : Bool :=
  list.any (fun s => s == str)

/-- Go `strings.HasSuffix`, on the character lists underlying strings. -/
def goHasSuffix (s sfx : String) : Bool :=
  sfx.data.isSuffixOf s.data

/-- util.go `hasAnySuffix`: does any configured suffix end the string? -/
def hasAnySuffix (suffixes : List String) (str : String) : Bool :=
  suffixes.any (fun s => goHasSuffix str s)

/-- Join path segments with "/" (slash-separated relative path string). -/
def joinPath : List String → String
  | [] => ""
  | [p] => p
  | p :: ps => p ++ "/" ++ joinPath ps

/-- Split a character list at '/' (Go `strings.Split(s, "/")` at character
level; the empty string splits to one empty field, as in Go). -/
def splitSlashChars : List Char → List (List Char)
  | [] => [[]]
  | c :: cs =>
    if c = '/' then [] :: splitSlashChars cs
    else
      match splitSlashChars cs with
      | s :: ss => (c :: s) :: ss
      | [] => [[c]]

/-- Go `strings.Split(s, "/")`. -/
def splitSlash (s : String) : List String :=
  (splitSlashChars s.data).map (fun l => ⟨l⟩)

/-- A string free of '/' characters (a single well-formed path segment). -/
def noSlash (s : String) : Bool :=
  !(s.data.contains '/')

/-! ## Filesystem trees -/

/-- A filesystem node: a regular file, or a directory with a read-error flag
and entries. -/
inductive FSNode where
  | file (name : String) : FSNode
  | dir (name : String) (readErr : Bool) (entries : List FSNode) : FSNode

/-- The name of a node. -/
def FSNode.name : FSNode → String
  | .file n => n
  | .dir n _ _ => n

/-- Whether a node is a directory. -/
def FSNode.isDir : FSNode → Bool
  | .file _ => false
  | .dir _ _ _ => true

/-- The entries of a node (empty for files). -/
def FSNode.entries : FSNode → List FSNode
  | .file _ => []
  | .dir _ _ es => es

/-- The names of a list of entries (`Readdirnames`). -/
def namesOf (es : List FSNode) : List String :=
  es.map FSNode.name

/-- util.go `dirHasFile`: the directory's entries contain a regular file with
the given name. -/
def dirHasFile (es : List FSNode) (filename : String) : Bool :=
  es.any fun e =>
    match e with
    | .file n => n == filename
    | .dir _ _ _ => false

/-- All strings in a list pairwise distinct. -/
def allDistinct : List String → Bool
  | [] => true
  | x :: xs => !(contains xs x) && allDistinct xs

mutual
/-- Well-formed node: the name is a single segment, directories are readable
and have pairwise-distinct entry names (as on a real filesystem). -/
def wfNode : FSNode → Bool
  | .file n => noSlash n
  | .dir n rerr es => noSlash n && !rerr && allDistinct (namesOf es) && wfList es

/-- Well-formedness of a list of entries. -/
def wfList : List FSNode → Bool
  | [] => true
  | e :: es => wfNode e && wfList es
end

/-- Find the entries of the (first) subdirectory with the given name. -/
def findDirIn (es : List FSNode) (seg : String) : Option FSNode :=
  es.findSome? fun e =>
    match e with
    | .dir n rerr es' => if n == seg then some (.dir n rerr es') else none
    | .file _ => none

/-- Navigate a segment path below a list of entries, returning the node at
that path if every intermediate step is a directory. -/
def findNode (es : List FSNode) : List String → Option FSNode
  | [] => none
  | [seg] =>
    es.findSome? fun e => if e.name == seg then some e else none
  | seg :: rest =>
    match findDirIn es seg with
    | some (.dir _ _ es') => findNode es' rest
    | _ => none

/-! ## Node.js package populator (unit.go, `readNodeJSPackage`) -/

/-- unit.go `NodeJSPackageConfig`. -/
structure NodeJSPackageConfig where
  TestDirs : List String := []
  TestSuffixes : List String := []
  SupportDirs : List String := []
  SupportFilenames : List String := []
  ExampleDirs : List String := []
  ScriptDirs : List String := []
  GeneratedDirs : List String := []
  GeneratedSuffixes : List String := []
  VendorDirs : List String := []
deriving DecidableEq

/-- The seven file categories of a NodeJSPackage. -/
inductive Category where
  | lib | script | support | examples | test | vendor | generated
deriving DecidableEq

/-- First pass of the `readNodeJSPackage` file classifier (unit.go): scan the
split relative path segment by segment; at each segment check vendor
directories first, then generated directories or a generated suffix of the
whole relative path. -/
def classifyPass1 (c : NodeJSPackageConfig) (relpath : String) : List String → Option Category
  | [] => none
  | part :: rest =>
    if contains c.VendorDirs part then some .vendor
    else if contains c.GeneratedDirs part || hasAnySuffix c.GeneratedSuffixes relpath then
      some .generated
    else classifyPass1 c relpath rest

/-- Second pass of the classifier (unit.go), reached only when the first pass
matched nothing: at each segment check script, example, test (segment in a
test directory or a test suffix of the whole relative path), then support
(segment in a support directory or the file's name a support filename). -/
def classifyPass2 (c : NodeJSPackageConfig) (relpath fname : String) : List String → Option Category
  | [] => none
  | part :: rest =>
    if contains c.ScriptDirs part then some .script
    else if contains c.ExampleDirs part then some .examples
    else if contains c.TestDirs part || hasAnySuffix c.TestSuffixes relpath then some .test
    else if contains c.SupportDirs part || contains c.SupportFilenames fname then some .support
    else classifyPass2 c relpath fname rest

/-- The category assigned to one `.js` file by `readNodeJSPackage`:
`parts` are the segments of the package-relative path (what
`strings.Split(relpath, "/")` yields on the joined path), `fname` the file's
base name (`info.Name()`).  Files matching neither pass land in `LibFiles`. -/
def classify (c : NodeJSPackageConfig) (parts : List String) (fname : String) : Category :=
  let relpath := joinPath parts
  match classifyPass1 c relpath parts with
  | some cat => cat
  | none => (classifyPass2 c relpath fname parts).getD .lib

mutual
/-- The `filepath.Walk` visitor of `readNodeJSPackage` on one entry below the
package root: collect (relative segment path, base name) of every regular
`.js` file, never descending into a directory named `node_modules`, into a
subdirectory containing a `package.json` file (a nested sub-package), or into
an unreadable directory (whose subtree `filepath.Walk` drops after the
callback swallows the read error). -/
def nodeWalkEntry (pfx : List String) : FSNode → List (List String × String)
  | .file n => if goHasSuffix n ".js" then [(pfx ++ [n], n)] else []
  | .dir n rerr es =>
    if n == "node_modules" then []
    else if dirHasFile es "package.json" then []
    else if rerr then []
    else nodeWalkEntries (pfx ++ [n]) es

/-- Walk a list of entries in order. -/
def nodeWalkEntries (pfx : List String) : List FSNode → List (List String × String)
  | [] => []
  | e :: es => nodeWalkEntry pfx e ++ nodeWalkEntries pfx es
end

/-- The full populator walk from the package root.  The root directory is
exempt from the sub-package check (`path != u.Dir` in unit.go) but not from
the `node_modules` check. -/
def nodeCollect : FSNode → List (List String × String)
  | .file _ => []
  | .dir n rerr es =>
    if n == "node_modules" then []
    else if rerr then []
    else nodeWalkEntries [] es

mutual
/-- The directories the populator walk descends into (whose entries it
traverses), as segment paths including the root's name. -/
def nodeDescEntry (pfx : List String) : FSNode → List (List String)
  | .file _ => []
  | .dir n rerr es =>
    if n == "node_modules" then []
    else if dirHasFile es "package.json" then []
    else if rerr then []
    else (pfx ++ [n]) :: nodeDescEntries (pfx ++ [n]) es

/-- Descended directories below a list of entries. -/
def nodeDescEntries (pfx : List String) : List FSNode → List (List String)
  | [] => []
  | e :: es => nodeDescEntry pfx e ++ nodeDescEntries pfx es
end

/-- Directories descended into by the populator walk, root included. -/
def nodeDescends : FSNode → List (List String)
  | .file _ => []
  | .dir n rerr es =>
    if n == "node_modules" then []
    else if rerr then []
    else [n] :: nodeDescEntries [n] es

/-- unit.go `NodeJSPackage`.  `PackageJSON` holds the raw manifest bytes
(the Go `json.RawMessage`), `none` modelling a nil slice. -/
structure NodeJSPackage where
  Dir : String := ""
  PackageJSON : Option String := none
  LibFiles : List String := []
  ScriptFiles : List String := []
  SupportFiles : List String := []
  ExampleFiles : List String := []
  TestFiles : List String := []
  VendorFiles : List String := []
  GeneratedFiles : List String := []
deriving DecidableEq

/-- Append one collected `.js` file to the category list chosen by
`classify`, exactly as the walk callback's if/else-if chain appends. -/
def addJSFile (c : NodeJSPackageConfig) (u : NodeJSPackage) (f : List String × String) : NodeJSPackage :=
  let rel := joinPath f.1
  match classify c f.1 f.2 with
  | .vendor => { u with VendorFiles := u.VendorFiles ++ [rel] }
  | .generated => { u with GeneratedFiles := u.GeneratedFiles ++ [rel] }
  | .script => { u with ScriptFiles := u.ScriptFiles ++ [rel] }
  | .examples => { u with ExampleFiles := u.ExampleFiles ++ [rel] }
  | .test => { u with TestFiles := u.TestFiles ++ [rel] }
  | .support => { u with SupportFiles := u.SupportFiles ++ [rel] }
  | .lib => { u with LibFiles := u.LibFiles ++ [rel] }

/-- unit.go `readNodeJSPackage`: record the relative directory and manifest
bytes, then classify every collected `.js` file in walk order. -/
def readNodeJSPackage (c : NodeJSPackageConfig) (reldir : String) (packageJSON : String)
    (root : FSNode) : NodeJSPackage :=
  (nodeCollect root).foldl (addJSFile c) { Dir := reldir, PackageJSON := some packageJSON }

/-- Project a category's list out of a NodeJSPackage. -/
def catFiles : Category → NodeJSPackage → List String
  | .lib, u => u.LibFiles
  | .script, u => u.ScriptFiles
  | .support, u => u.SupportFiles
  | .examples, u => u.ExampleFiles
  | .test, u => u.TestFiles
  | .vendor, u => u.VendorFiles
  | .generated, u => u.GeneratedFiles

/-- The list of all seven categories. -/
def allCategories : List Category :=
  [.lib, .script, .support, .examples, .test, .vendor, .generated]

/-- In how many of the seven category lists does a path string appear? -/
def listsContaining (u : NodeJSPackage) (f : String) : Nat :=
  (allCategories.filter (fun cat => contains (catFiles cat u) f)).length

/-- The claim-side eligibility of a relative segment path, following the
specification's words (recursion is on the path): the path must lead to a
regular file whose name ends in `.js`, and every directory passed on the way
must exist, must not be named `node_modules`, and must not itself contain a
`package.json` file (that would make it a nested sub-package). -/
def checkPath : List String → List FSNode → Bool
  | [], _ => false
  | [n], es => dirHasFile es n && goHasSuffix n ".js"
  | seg :: rest, es =>
    match findDirIn es seg with
    | some (.dir _ _ es') =>
      seg != "node_modules" && !(dirHasFile es' "package.json") && checkPath rest es'
    | _ => false

/-- Claim-side predicate: the relative segment path names a `.js` regular
file under the package root that is excluded neither by the `node_modules`
rule (the root's own name included) nor by the nested sub-package rule
(which does not apply to the root itself). -/
def eligible (root : FSNode) (p : List String) : Bool :=
  match root with
  | .file _ => false
  | .dir rn _ es => rn != "node_modules" && checkPath p es

/-! ## Go package import-path resolution (unit.go `readGoPackage`, util.go
`hasSubdir`).  Absolute paths are canonical segment lists; the Go source-root
filesystem is a list of existing directory paths. -/

/-- util.go `hasSubdir` on canonical symlink-free paths: after `Clean` and
appending the separator to the root, the test is a proper-prefix test, and
the returned relative path is the remainder. -/
def hasSubdir (root dir : List String) : Option (List String) :=
  if root.isPrefixOf dir && root.length < dir.length then some (dir.drop root.length)
  else none

/-- util.go `isDir` over the modelled set of existing directories. -/
def isDir (fs : List (List String)) (d : List String) : Bool :=
  fs.any (fun p => p == d)

/-- A model of the fields of `go/build.Package` that unit.go reads or
writes, plus representative provider-filled fields carried through
untouched.  `ImportPos`-style maps are `none` when nil. -/
structure GoPackage where
  Dir : String := ""
  Name : String := ""
  ImportPath : String := ""
  Root : String := ""
  SrcRoot : String := ""
  PkgRoot : String := ""
  BinDir : String := ""
  GoFiles : List String := []
  TestGoFiles : List String := []
  XTestGoFiles : List String := []
  Imports : List String := []
  TestImports : List String := []
  XTestImports : List String := []
  ImportPos : Option (List (String × Int)) := none
  TestImportPos : Option (List (String × Int)) := none
  XTestImportPos : Option (List (String × Int)) := none
deriving DecidableEq

/-- The import-path search loop of `readGoPackage` (unit.go): find the first
configured source root of which `absdir` is a strict subdirectory; before
recording it, probe every earlier root `earlyRoot` for an existing directory
at `filepath.Join(earlyRoot, "src", sub)` — on a hit, jump to `Found`
without recording anything.  Returns the recorded (sub, Dir(root)) pair, or
`none` when nothing was recorded. -/
def resolveImportPath (fs : List (List String)) (absdir : List String) :
    List (List String) → List (List String) → Option (List String × List String)
  | [], _ => none
  | root :: rest, earlier =>
    match hasSubdir root absdir with
    | some sub =>
      if earlier.any (fun earlyRoot => isDir fs (earlyRoot ++ ["src"] ++ sub)) then none
      else some (sub, root.dropLast)
    | none => resolveImportPath fs absdir rest (earlier ++ [root])

/-- unit.go `readGoPackage`: take the provider's package record `pkg0`
(`BuildContext.ImportDir`), resolve the import path against the configured
source roots (`BuildContext.SrcDirs()`), discard the import-position maps,
clear the filesystem-root fields when `PathIndependent` is set, and record
the base-relative directory. -/
def readGoPackage (fs : List (List String)) (srcdirs : List (List String))
    (pathIndependent : Bool) (absdir : List String) (reldir : String)
    (pkg0 : GoPackage) : GoPackage :=
  let pkg1 :=
    match resolveImportPath fs absdir srcdirs [] with
    | some (sub, rootDir) => { pkg0 with ImportPath := joinPath sub, Root := joinPath rootDir }
    | none => pkg0
  let pkg2 := { pkg1 with ImportPos := none, TestImportPos := none, XTestImportPos := none }
  let pkg3 :=
    if pathIndependent then { pkg2 with Root := "", SrcRoot := "", PkgRoot := "", BinDir := "" }
    else pkg2
  { pkg3 with Dir := reldir }

/-! ## Ruby and Java populators (unit.go) -/

/-- unit.go `RubyConfig` (the fields the populators read). -/
structure RubyConfig where
  TestDirs : List String := []
  AppSrcDirs : List String := []
deriving DecidableEq

mutual
/-- The suffix collector underlying `collectRubyFiles` and
`collectJavaFiles`: gather every regular file with the given suffix in the
subtree, as path strings relative to the unit root (pfx carries the segments
from the unit root down to the current entry's parent).  An unreadable
directory's subtree is dropped, as `filepath.Walk` does when the callback
swallows the read error. -/
def collectFilesEntry (sfx : String) (pfx : List String) : FSNode → List String
  | .file n => if goHasSuffix n sfx then [joinPath (pfx ++ [n])] else []
  | .dir n rerr es => if rerr then [] else collectFilesEntries sfx (pfx ++ [n]) es

/-- Collect over a list of entries in order. -/
def collectFilesEntries (sfx : String) (pfx : List String) : List FSNode → List String
  | [] => []
  | e :: es => collectFilesEntry sfx pfx e ++ collectFilesEntries sfx pfx es
end

/-- Collect suffix-matching files under the subdirectory at `segs` below the
unit root's entries, or nothing when no such directory exists (the `isDir`
guard / the walk of a missing directory). -/
def collectUnder (sfx : String) (rootEntries : List FSNode) (segs : List String) : List String :=
  match findNode rootEntries segs with
  | some (.dir _ rerr es) => if rerr then [] else collectFilesEntries sfx segs es
  | _ => []

/-- unit.go `RubyGem`. -/
structure RubyGem where
  Dir : String := ""
  SrcFiles : List String := []
  TestFiles : List String := []
deriving DecidableEq

/-- unit.go `RubyApp`. -/
structure RubyApp where
  Dir : String := ""
  SrcFiles : List String := []
  TestFiles : List String := []
deriving DecidableEq

/-- unit.go `JavaProject`. -/
structure JavaProject where
  Dir : String := ""
  ProjectClasspath : String := ""
  SrcFiles : List String := []
  TestFiles : List String := []
deriving DecidableEq

/-- unit.go `readRubyGem`: sources from the conventional `lib` directory,
tests appended from every configured test directory that exists. -/
def readRubyGem (rc : RubyConfig) (reldir : String) (root : FSNode) : RubyGem :=
  let src := collectUnder ".rb" root.entries ["lib"]
  let tst := rc.TestDirs.foldl
    (fun acc testdir => acc ++ collectUnder ".rb" root.entries (splitSlash testdir)) []
  { Dir := reldir, SrcFiles := src, TestFiles := tst }

/-- unit.go `readRubyApp`: for each configured app-source directory that
exists, `app.SrcFiles, err = collectRubyFiles(absdir, dir)` ASSIGNS the
collection (the loop overwrites, it does not append); the test-directory
loop appends. -/
def readRubyApp (rc : RubyConfig) (reldir : String) (root : FSNode) : RubyApp :=
  let src := rc.AppSrcDirs.foldl
    (fun acc srcdir =>
      match findNode root.entries (splitSlash srcdir) with
      | some (.dir _ rerr es) => if rerr then [] else collectFilesEntries ".rb" (splitSlash srcdir) es
      | _ => acc) []
  let tst := rc.TestDirs.foldl
    (fun acc testdir => acc ++ collectUnder ".rb" root.entries (splitSlash testdir)) []
  { Dir := reldir, SrcFiles := src, TestFiles := tst }

/-- unit.go `readJavaMavenProject`: fixed Maven-convention source and test
roots; a missing directory contributes nothing (the walk of a missing path
reports its error to the callback, which swallows it). -/
def readJavaMavenProject (reldir : String) (root : FSNode) : JavaProject :=
  { Dir := reldir
    ProjectClasspath := "target/classes"
    SrcFiles := collectUnder ".java" root.entries ["src", "main", "java"]
    TestFiles := collectUnder ".java" root.entries ["src", "test", "java"] }

/-! ## Remaining unit variants (unit.go) -/

/-- unit.go `PythonPackage`. -/
structure PythonPackage where
  Dir : String := ""
deriving DecidableEq

/-- unit.go `PythonModule`. -/
structure PythonModule where
  File : String := ""
deriving DecidableEq

/-- The closed union of source-unit variants (the `Unit` interface with its
seven implementations). -/
inductive Unit' where
  | nodeJS : NodeJSPackage → Unit'
  | goPkg : GoPackage → Unit'
  | python : PythonPackage → Unit'
  | pythonMod : PythonModule → Unit'
  | rubyGem : RubyGem → Unit'
  | rubyApp : RubyApp → Unit'
  | javaProj : JavaProject → Unit'
deriving DecidableEq

/-- The `Path()` capability: every variant reports its root directory (or,
for a module, its file path). -/
def unitPath : Unit' → String
  | .nodeJS u => u.Dir
  | .goPkg u => u.Dir
  | .python u => u.Dir
  | .pythonMod u => u.File
  | .rubyGem u => u.Dir
  | .rubyApp u => u.Dir
  | .javaProj u => u.Dir

/-- unit.go `UnitType`: the variant's type name, as reflect reports it. -/
def UnitType : Unit' → String
  | .nodeJS _ => "NodeJSPackage"
  | .goPkg _ => "GoPackage"
  | .python _ => "PythonPackage"
  | .pythonMod _ => "PythonModule"
  | .rubyGem _ => "RubyGem"
  | .rubyApp _ => "RubyApp"
  | .javaProj _ => "JavaProject"

/-! ## Profiles and the scan engine (profiles.go, srcscan.go) -/

/-- profiles.go directory matchers: `FileInDir` and `FileSuffixInDir`. -/
inductive DirMatcher where
  | FileInDir (filename : String)
  | FileSuffixInDir (sfx : String)

/-- `DirMatches` over a directory's entry names. -/
def DirMatcher.matches : DirMatcher → List String → Bool
  | .FileInDir filename, names => contains names filename
  | .FileSuffixInDir sfx, names => names.any (fun f => goHasSuffix f sfx)

/-- profiles.go file matcher: `FileHasSuffix` over the walk path string. -/
inductive FileMatcher where
  | FileHasSuffix (sfx : String)

/-- `FileMatches`. -/
def FileMatcher.matches : FileMatcher → String → Bool
  | .FileHasSuffix sfx, path => goHasSuffix path sfx

/-- profiles.go `Profile`: matchers, the top-level-only flag, and the unit
constructor, which receives the walk path (as segments; the base-relative
path string is its join) and the matched node. -/
structure Profile where
  Name : String := ""
  Dir : Option DirMatcher := none
  File : Option FileMatcher := none
  TopLevelOnly : Bool := false
  Unit : List String → FSNode → Unit'

/-- The outcome of one profile's `filepath.Walk`: the units appended (paired
with the segment path at which each was constructed), the directories whose
entries were traversed, and the error that aborted the walk, if any. -/
structure WalkOut where
  units : List (List String × Unit') := []
  descended : List (List String) := []
  err : Option String := none

mutual
/-- One profile's walk visitor (the closure inside `Config.Scan`,
srcscan.go): for a directory, skip it when its name is in `SkipDirs` (the
root is exempt); abort with the error when the directory cannot be opened
and read; otherwise evaluate the directory matcher on the entry names,
append the constructed unit on a match, stop descent when the profile is
`TopLevelOnly`, and recurse into the entries.  For a regular file, evaluate
the file matcher on the path string. -/
def walkNode (skipDirs : List String) (p : Profile) (isRoot : Bool) (path : List String) :
    FSNode → WalkOut
  | .file n =>
    match p.File with
    | some fm =>
      if fm.matches (joinPath path) then
        { units := [(path, p.Unit path (.file n))] }
      else {}
    | none => {}
  | .dir n rerr es =>
    if !isRoot && contains skipDirs n then {}
    else if rerr then { err := some ("open " ++ joinPath path) }
    else
      let matched :=
        match p.Dir with
        | some dm => dm.matches (namesOf es)
        | none => false
      let us : List (List String × Unit') :=
        if matched then [(path, p.Unit path (.dir n rerr es))] else []
      if matched && p.TopLevelOnly then { units := us }
      else
        let rest := walkEntries skipDirs p path es
        { units := us ++ rest.units, descended := path :: rest.descended, err := rest.err }

/-- Walk sibling entries in order; a non-nil error returned from within an
entry's subtree aborts the walk, keeping what was accumulated so far. -/
def walkEntries (skipDirs : List String) (p : Profile) (path : List String) :
    List FSNode → WalkOut
  | [] => {}
  | e :: es =>
    let w := walkNode skipDirs p false (path ++ [e.name]) e
    match w.err with
    | some _ => w
    | none =>
      let ws := walkEntries skipDirs p path es
      { units := w.units ++ ws.units, descended := w.descended ++ ws.descended, err := ws.err }
end

/-- srcscan.go `Config.Scan`: one `filepath.Walk` per profile, in order;
`found` accumulates across all walks while `err` is overwritten by each
walk's result, so the returned error is the last profile's. -/
def Scan (skipDirs : List String) (profiles : List Profile) (root : FSNode) : WalkOut :=
  profiles.foldl
    (fun acc p =>
      let w := walkNode skipDirs p true [root.name] root
      { units := acc.units ++ w.units, descended := acc.descended ++ w.descended, err := w.err })
    {}

/-! ## The profile registry (profiles.go `AllProfiles`).

The registry references two constructors, `readNPMPackage` and
`readBowerComponent`, whose definitions are not part of the available
source; only this caller names them. -/

/-- srcscan.go `Config`, with the machine-dependent collaborators
(`BuildContext`, the filesystem behind it, manifest file contents) made
explicit parameters. -/
structure Config where
  SkipDirs : List String := []
  PathIndependent : Bool := false
  NodeJSPackage : NodeJSPackageConfig := {}
  Ruby : RubyConfig := {}
  GoSrcDirs : List (List String) := []

/-- The machine environment a scan runs in: the directory set and provider
behind the Go build context, the bytes of each `package.json`, and the
working directory that absolutizes walk paths. -/
structure ScanEnv where
  goFs : List (List String) := []
  goProvider : List String → GoPackage := fun _ => {}
  manifestBytes : List String → String := fun _ => ""
  cwd : List String := []

/-- Modelled from the spec: `readNPMPackage`, the NPM profile's constructor,
is missing from the available source; per the specification a directory
containing `package.json` becomes a `NodeJSPackage` populated by the Node.js
populator, which is `readNodeJSPackage` (unit.go). -/
def readNPMPackage (c : Config) (env : ScanEnv) (path : List String) (node : FSNode) : Unit' :=
  .nodeJS (readNodeJSPackage c.NodeJSPackage (joinPath path) (env.manifestBytes path) node)

/-- Modelled from the spec: `readBowerComponent` is missing from the
available source and the specification's closed variant set has no Bower
variant; the nearest spec-conformant reading makes a Bower component a
`NodeJSPackage` populated by the same Node.js populator. -/
def readBowerComponent (c : Config) (env : ScanEnv) (path : List String) (node : FSNode) : Unit' :=
  .nodeJS (readNodeJSPackage c.NodeJSPackage (joinPath path) (env.manifestBytes path) node)

/-- The NPM package profile (profiles.go). -/
def npmProfile (c : Config) (env : ScanEnv) : Profile :=
  { Name := "NPM package"
    Dir := some (.FileInDir "package.json")
    Unit := readNPMPackage c env }

/-- The Bower component profile (profiles.go). -/
def bowerProfile (c : Config) (env : ScanEnv) : Profile :=
  { Name := "Bower component"
    Dir := some (.FileInDir "bower.json")
    Unit := readBowerComponent c env }

/-- The Python package-and-module profile (profiles.go): top-level only,
matching directories holding `__init__.py` and loose `.py` files. -/
def pythonProfile : Profile :=
  { Name := "Python package and module"
    TopLevelOnly := true
    Dir := some (.FileInDir "__init__.py")
    File := some (.FileHasSuffix ".py")
    Unit := fun path node =>
      if node.isDir then .python { Dir := joinPath path }
      else .pythonMod { File := joinPath path } }

/-- The Go package profile (profiles.go). -/
def goProfile (c : Config) (env : ScanEnv) : Profile :=
  { Name := "Go package"
    Dir := some (.FileSuffixInDir ".go")
    Unit := fun path _ =>
      .goPkg (readGoPackage env.goFs c.GoSrcDirs c.PathIndependent
        (env.cwd ++ path) (joinPath path) (env.goProvider (env.cwd ++ path))) }

/-- The Java Maven project profile (profiles.go). -/
def javaProfile : Profile :=
  { Name := "Java Maven project"
    Dir := some (.FileInDir "pom.xml")
    Unit := fun path node => .javaProj (readJavaMavenProject (joinPath path) node) }

/-- The Ruby Gem profile (profiles.go). -/
def rubyGemProfile (c : Config) : Profile :=
  { Name := "Ruby Gem"
    Dir := some (.FileSuffixInDir ".gemspec")
    Unit := fun path node => .rubyGem (readRubyGem c.Ruby (joinPath path) node) }

/-- The Ruby app profile (profiles.go). -/
def rubyAppProfile (c : Config) : Profile :=
  { Name := "Ruby app"
    Dir := some (.FileInDir "config.ru")
    Unit := fun path node => .rubyApp (readRubyApp c.Ruby (joinPath path) node) }

/-- profiles.go `AllProfiles`: the ordered registry. -/
def AllProfiles (c : Config) (env : ScanEnv) : List Profile :=
  [npmProfile c env, bowerProfile c env, pythonProfile, goProfile c env, javaProfile,
    rubyGemProfile c, rubyAppProfile c]

/-- srcscan.go `Default`: the default configuration (its `BuildContext` is
the machine's `build.Default`, so the Go source roots stay a parameter). -/
def Default : Config :=
  { SkipDirs := ["node_modules", "vendor", "testdata", "site-packages", "bower_components"]
    NodeJSPackage :=
      { TestDirs := ["test", "tests", "spec", "specs", "unit", "mocha", "karma", "testdata"]
        TestSuffixes := ["test.js", "tests.js", "spec.js", "specs.js"]
        SupportDirs := ["build_support"]
        SupportFilenames := ["Gruntfile.js", "build.js", "Makefile.dryice.js", "build.config.js"]
        ExampleDirs := ["example", "examples", "sample", "samples", "doc", "docs", "demo", "demos"]
        ScriptDirs := ["bin", "script", "scripts", "tool", "tools"]
        GeneratedDirs := ["build", "dist"]
        GeneratedSuffixes := [".min.js", "-min.js", ".optimized.js", "-optimized.js"]
        VendorDirs := ["vendor", "bower_components", "node_modules", "assets", "public", "static", "resources"] }
    Ruby := { TestDirs := ["spec", "specs", "test", "tests"], AppSrcDirs := ["app", "lib", "config", "db"] } }

/-! ## Tagged-union JSON serialization (unit.go `MarshalableUnit`,
`MarshalJSON`, `UnmarshalJSON`).  JSON values are modelled explicitly; the
`raw` constructor carries `json.RawMessage` bytes embedded verbatim. -/

/-- A JSON value. -/
inductive Json where
  | str : String → Json
  | num : Int → Json
  | bool : Bool → Json
  | null : Json
  | raw : String → Json
  | arr : List Json → Json
  | obj : List (String × Json) → Json

/-- Look a field up by key in an object's field list. -/
def jlookup : List (String × Json) → String → Option Json
  | [], _ => none
  | (k, v) :: rest, key => if k == key then some v else jlookup rest key

/-- Encode a list of strings as a JSON array. -/
def encodeStrList (l : List String) : Json :=
  .arr (l.map .str)

/-- Decode a list of JSON strings. -/
def decodeStrs : List Json → Option (List String)
  | [] => some []
  | .str s :: rest => (decodeStrs rest).map (s :: ·)
  | _ => none

/-- Decode a JSON array of strings. -/
def decodeStrList : Json → Option (List String)
  | .arr xs => decodeStrs xs
  | _ => none

/-- An `omitempty` list field: present exactly when the list is nonempty. -/
def optStrList (key : String) (l : List String) : List (String × Json) :=
  if l.isEmpty then [] else [(key, encodeStrList l)]

/-- An `omitempty` `json.RawMessage` field: present exactly when non-nil. -/
def optRaw (key : String) (v : Option String) : List (String × Json) :=
  match v with
  | none => []
  | some s => [(key, .raw s)]

/-- Decode a string field; a missing key decodes to the zero value "". -/
def decodeStrField (fields : List (String × Json)) (key : String) : Option String :=
  match jlookup fields key with
  | none => some ""
  | some (.str s) => some s
  | some _ => none

/-- Decode a list field; a missing key or `null` decodes to the nil list. -/
def decodeListField (fields : List (String × Json)) (key : String) : Option (List String) :=
  match jlookup fields key with
  | none => some []
  | some .null => some []
  | some j => decodeStrList j

/-- Decode a raw-message field; a missing key decodes to the nil message. -/
def decodeRawField (fields : List (String × Json)) (key : String) : Option (Option String) :=
  match jlookup fields key with
  | none => some none
  | some (.raw s) => some (some s)
  | some _ => none

/-- Encode an import-position map (`nil` becomes `null`). -/
def encodePosMap : Option (List (String × Int)) → Json
  | none => .null
  | some m => .obj (m.map (fun kv => (kv.1, Json.num kv.2)))

/-- Decode the pairs of an import-position map object. -/
def decodePosPairs : List (String × Json) → Option (List (String × Int))
  | [] => some []
  | (k, .num i) :: rest => (decodePosPairs rest).map ((k, i) :: ·)
  | _ => none

/-- Decode an import-position map; a missing key or `null` decodes to nil. -/
def decodePosMapField (fields : List (String × Json)) (key : String) :
    Option (Option (List (String × Int))) :=
  match jlookup fields key with
  | none => some none
  | some .null => some none
  | some (.obj kvs) => (decodePosPairs kvs).map some
  | some _ => none

/-- Marshal a `NodeJSPackage` following its field tags: `Dir` is plain,
`PackageJSON` and every category list are `omitempty`. -/
def encodeNodeJSPackage (u : NodeJSPackage) : Json :=
  .obj ([("Dir", .str u.Dir)]
    ++ optRaw "PackageJSON" u.PackageJSON
    ++ optStrList "LibFiles" u.LibFiles
    ++ optStrList "ScriptFiles" u.ScriptFiles
    ++ optStrList "SupportFiles" u.SupportFiles
    ++ optStrList "ExampleFiles" u.ExampleFiles
    ++ optStrList "TestFiles" u.TestFiles
    ++ optStrList "VendorFiles" u.VendorFiles
    ++ optStrList "GeneratedFiles" u.GeneratedFiles)

/-- Unmarshal a `NodeJSPackage`. -/
def decodeNodeJSPackage : Json → Option NodeJSPackage
  | .obj fields => do
    let dir ← decodeStrField fields "Dir"
    let pj ← decodeRawField fields "PackageJSON"
    let lib ← decodeListField fields "LibFiles"
    let script ← decodeListField fields "ScriptFiles"
    let support ← decodeListField fields "SupportFiles"
    let ex ← decodeListField fields "ExampleFiles"
    let tst ← decodeListField fields "TestFiles"
    let vnd ← decodeListField fields "VendorFiles"
    let gen ← decodeListField fields "GeneratedFiles"
    pure ⟨dir, pj, lib, script, support, ex, tst, vnd, gen⟩
  | _ => none

/-- Marshal a `GoPackage` (the embedded `build.Package` carries no tags, so
every modelled field is emitted). -/
def encodeGoPackage (u : GoPackage) : Json :=
  .obj [("Dir", .str u.Dir), ("Name", .str u.Name), ("ImportPath", .str u.ImportPath),
    ("Root", .str u.Root), ("SrcRoot", .str u.SrcRoot), ("PkgRoot", .str u.PkgRoot),
    ("BinDir", .str u.BinDir), ("GoFiles", encodeStrList u.GoFiles),
    ("TestGoFiles", encodeStrList u.TestGoFiles), ("XTestGoFiles", encodeStrList u.XTestGoFiles),
    ("Imports", encodeStrList u.Imports), ("TestImports", encodeStrList u.TestImports),
    ("XTestImports", encodeStrList u.XTestImports), ("ImportPos", encodePosMap u.ImportPos),
    ("TestImportPos", encodePosMap u.TestImportPos),
    ("XTestImportPos", encodePosMap u.XTestImportPos)]

/-- Unmarshal a `GoPackage`. -/
def decodeGoPackage : Json → Option GoPackage
  | .obj fields => do
    let dir ← decodeStrField fields "Dir"
    let nm ← decodeStrField fields "Name"
    let ip ← decodeStrField fields "ImportPath"
    let rt ← decodeStrField fields "Root"
    let srt ← decodeStrField fields "SrcRoot"
    let prt ← decodeStrField fields "PkgRoot"
    let bd ← decodeStrField fields "BinDir"
    let gf ← decodeListField fields "GoFiles"
    let tgf ← decodeListField fields "TestGoFiles"
    let xtgf ← decodeListField fields "XTestGoFiles"
    let im ← decodeListField fields "Imports"
    let tim ← decodeListField fields "TestImports"
    let xtim ← decodeListField fields "XTestImports"
    let ipos ← decodePosMapField fields "ImportPos"
    let tipos ← decodePosMapField fields "TestImportPos"
    let xtipos ← decodePosMapField fields "XTestImportPos"
    pure ⟨dir, nm, ip, rt, srt, prt, bd, gf, tgf, xtgf, im, tim, xtim, ipos, tipos, xtipos⟩
  | _ => none

/-- Marshal a `PythonPackage`. -/
def encodePythonPackage (u : PythonPackage) : Json :=
  .obj [("Dir", .str u.Dir)]

/-- Unmarshal a `PythonPackage`. -/
def decodePythonPackage : Json → Option PythonPackage
  | .obj fields => do
    let dir ← decodeStrField fields "Dir"
    pure ⟨dir⟩
  | _ => none

/-- Marshal a `PythonModule`. -/
def encodePythonModule (u : PythonModule) : Json :=
  .obj [("File", .str u.File)]

/-- Unmarshal a `PythonModule`. -/
def decodePythonModule : Json → Option PythonModule
  | .obj fields => do
    let f ← decodeStrField fields "File"
    pure ⟨f⟩
  | _ => none

/-- Marshal a `RubyGem`. -/
def encodeRubyGem (u : RubyGem) : Json :=
  .obj [("Dir", .str u.Dir), ("SrcFiles", encodeStrList u.SrcFiles),
    ("TestFiles", encodeStrList u.TestFiles)]

/-- Unmarshal a `RubyGem`. -/
def decodeRubyGem : Json → Option RubyGem
  | .obj fields => do
    let dir ← decodeStrField fields "Dir"
    let src ← decodeListField fields "SrcFiles"
    let tst ← decodeListField fields "TestFiles"
    pure ⟨dir, src, tst⟩
  | _ => none

/-- Marshal a `RubyApp`. -/
def encodeRubyApp (u : RubyApp) : Json :=
  .obj [("Dir", .str u.Dir), ("SrcFiles", encodeStrList u.SrcFiles),
    ("TestFiles", encodeStrList u.TestFiles)]

/-- Unmarshal a `RubyApp`. -/
def decodeRubyApp : Json → Option RubyApp
  | .obj fields => do
    let dir ← decodeStrField fields "Dir"
    let src ← decodeListField fields "SrcFiles"
    let tst ← decodeListField fields "TestFiles"
    pure ⟨dir, src, tst⟩
  | _ => none

/-- Marshal a `JavaProject`. -/
def encodeJavaProject (u : JavaProject) : Json :=
  .obj [("Dir", .str u.Dir), ("ProjectClasspath", .str u.ProjectClasspath),
    ("SrcFiles", encodeStrList u.SrcFiles), ("TestFiles", encodeStrList u.TestFiles)]

/-- Unmarshal a `JavaProject`. -/
def decodeJavaProject : Json → Option JavaProject
  | .obj fields => do
    let dir ← decodeStrField fields "Dir"
    let cp ← decodeStrField fields "ProjectClasspath"
    let src ← decodeListField fields "SrcFiles"
    let tst ← decodeListField fields "TestFiles"
    pure ⟨dir, cp, src, tst⟩
  | _ => none

/-- Marshal any unit variant to its field record. -/
def encodeUnit : Unit' → Json
  | .nodeJS u => encodeNodeJSPackage u
  | .goPkg u => encodeGoPackage u
  | .python u => encodePythonPackage u
  | .pythonMod u => encodePythonModule u
  | .rubyGem u => encodeRubyGem u
  | .rubyApp u => encodeRubyApp u
  | .javaProj u => encodeJavaProject u

/-- Wrap a variant decode result the way `UnmarshalJSON` reports it. -/
def decodedUnit {α : Type} (f : α → Unit') : Option α → Except String Unit'
  | some u => .ok (f u)
  | none => .error "json: cannot unmarshal source unit"

/-- unit.go `UnmarshalJSON`: dispatch on the variant tag; a tag outside the
seven known names reports the unhandled-type error. -/
def UnmarshalJSON (data : Json) (unitType : String) : Except String Unit' :=
  if unitType == "NodeJSPackage" then decodedUnit .nodeJS (decodeNodeJSPackage data)
  else if unitType == "GoPackage" then decodedUnit .goPkg (decodeGoPackage data)
  else if unitType == "PythonPackage" then decodedUnit .python (decodePythonPackage data)
  else if unitType == "PythonModule" then decodedUnit .pythonMod (decodePythonModule data)
  else if unitType == "RubyApp" then decodedUnit .rubyApp (decodeRubyApp data)
  else if unitType == "RubyGem" then decodedUnit .rubyGem (decodeRubyGem data)
  else if unitType == "JavaProject" then decodedUnit .javaProj (decodeJavaProject data)
  else .error ("unhandled source unit type: " ++ unitType)

/-- The seven variant names `UnmarshalJSON` handles. -/
def knownUnitTypes : List String :=
  ["NodeJSPackage", "GoPackage", "PythonPackage", "PythonModule", "RubyApp", "RubyGem",
    "JavaProject"]

/-- unit.go `MarshalableUnit.MarshalJSON`: the unit's fields under the
anonymous interface field's name `Unit`, tagged with the variant name under
`Type`. -/
def marshalMarshalableUnit (u : Unit') : Json :=
  .obj [("Unit", encodeUnit u), ("Type", .str (UnitType u))]

/-- unit.go `MarshalableUnit.UnmarshalJSON`: read the raw `Unit` payload and
the `Type` tag, then dispatch through `UnmarshalJSON`. -/
def unmarshalMarshalableUnit : Json → Except String Unit'
  | .obj fields =>
    match jlookup fields "Unit", jlookup fields "Type" with
    | some payload, some (.str ty) => UnmarshalJSON payload ty
    | _, _ => .error "json: cannot unmarshal MarshalableUnit"
  | _ => .error "json: cannot unmarshal MarshalableUnit"

/-! ## Concrete example trees -/

/-- The specification's example Node.js package tree, entries in the lexical
order `filepath.Walk` visits them. -/
def exTree : FSNode :=
  .dir "node.js" false
    [ .file "a.js", .file "a.min.js", .file "a_test.js",
      .dir "dist" false [.file "a.js"],
      .dir "lib" false [.file "a.js"],
      .file "package.json",
      .dir "test" false [.file "b.js"],
      .dir "vendor" false [.file "a.js"] ]

/-- A package holding `dist/vendor/a.js`: the segment `vendor` is a
configured vendor directory, yet the first pass reaches the segment `dist`
(a generated directory) first. -/
def c1Tree : FSNode :=
  .dir "pkg" false
    [.dir "dist" false [.dir "vendor" false [.file "a.js"]], .file "package.json"]

/-- A package holding `examples/bin/a.js`: the segment `bin` is a configured
script directory, yet the second pass reaches the segment `examples` (an
example directory) first. -/
def c5Tree : FSNode :=
  .dir "pkg" false
    [.dir "examples" false [.dir "bin" false [.file "a.js"]], .file "package.json"]

/-- A two-root Go filesystem: both roots contain a directory `foo`, but
neither contains `src/foo` below itself. -/
def c3fs : List (List String) :=
  [["goA"], ["goA", "src"], ["goA", "src", "foo"], ["goB"], ["goB", "src"],
    ["goB", "src", "foo"]]

/-- The two configured Go source roots for the collision scenario. -/
def c3srcdirs : List (List String) :=
  [["goA", "src"], ["goB", "src"]]

/-- A scan root holding a Python package `mypkg` with a nested Python
package `mypkg/qux`. -/
def pyTree : FSNode :=
  .dir "t" false
    [.dir "mypkg" false [.file "__init__.py", .dir "qux" false [.file "__init__.py"]]]

/-- A Ruby app root with `.rb` files under two configured app-source
directories, `app` and `lib`. -/
def c9Tree : FSNode :=
  .dir "myapp" false
    [.dir "app" false [.file "x.rb"], .file "config.ru", .dir "lib" false [.file "y.rb"]]

/-- A scan root for the error-replacement scenario: a Go package `apkg`,
then a Python package `pkg` containing an unreadable directory `bad`. -/
def c10Tree : FSNode :=
  .dir "r" false
    [ .dir "apkg" false [.file "a.go"],
      .dir "pkg" false [.file "__init__.py", .dir "bad" true []] ]

/-! ## Basic lemmas -/

theorem contains_iff_mem (l : List String) (s : String) : contains l s = true ↔ s ∈ l := by
  simp only [contains, List.any_eq_true, beq_iff_eq]
  constructor
  · rintro ⟨x, hx, rfl⟩
    exact hx
  · intro h
    exact ⟨s, h, rfl⟩

/-- The first classifier pass finds the first segment in a vendor or
generated directory list (or any segment at all when the whole path carries
a generated suffix), yielding vendor when that segment is a vendor
directory and generated otherwise. -/
theorem classifyPass1_eq_find (c : NodeJSPackageConfig) (relpath : String) (parts : List String) :
    classifyPass1 c relpath parts =
      (parts.find? (fun part => contains c.VendorDirs part || contains c.GeneratedDirs part
        || hasAnySuffix c.GeneratedSuffixes relpath)).map
        (fun part => if contains c.VendorDirs part then Category.vendor else Category.generated) := by
  induction parts with
  | nil => rfl
  | cons part rest ih =>
    by_cases hv : contains c.VendorDirs part
    · simp [classifyPass1, hv, List.find?]
    · by_cases hg : (contains c.GeneratedDirs part || hasAnySuffix c.GeneratedSuffixes relpath) = true
      · simp [classifyPass1, hv, hg, List.find?]
      · simp only [Bool.or_eq_true, not_or, Bool.not_eq_true] at hg
        simp only [Bool.not_eq_true] at hv
        simp [classifyPass1, hv, hg.1, hg.2, List.find?, ih]

/-- The second classifier pass finds the first segment matching any of the
script/example/test/support criteria (the test-suffix and support-filename
criteria fire at every segment), and categorizes that segment by the
if/else-if order script, example, test, support. -/
theorem classifyPass2_eq_find (c : NodeJSPackageConfig) (relpath fname : String)
    (parts : List String) :
    classifyPass2 c relpath fname parts =
      (parts.find? (fun part => contains c.ScriptDirs part || contains c.ExampleDirs part
        || contains c.TestDirs part || hasAnySuffix c.TestSuffixes relpath
        || contains c.SupportDirs part || contains c.SupportFilenames fname)).map
        (fun part =>
          if contains c.ScriptDirs part then Category.script
          else if contains c.ExampleDirs part then Category.examples
          else if contains c.TestDirs part || hasAnySuffix c.TestSuffixes relpath then Category.test
          else Category.support) := by
  induction parts with
  | nil => rfl
  | cons part rest ih =>
    by_cases h1 : contains c.ScriptDirs part
    · simp [classifyPass2, h1, List.find?]
    · by_cases h2 : contains c.ExampleDirs part
      · simp [classifyPass2, h1, h2, List.find?]
      · by_cases h3 : (contains c.TestDirs part || hasAnySuffix c.TestSuffixes relpath) = true
        · cases h3' : (contains c.TestDirs part) <;>
            cases h3'' : (hasAnySuffix c.TestSuffixes relpath) <;>
              simp_all [classifyPass2, List.find?]
        · by_cases h4 : (contains c.SupportDirs part || contains c.SupportFilenames fname) = true
          · simp only [Bool.or_eq_true] at h3
            push_neg at h3
            cases h4' : (contains c.SupportDirs part) <;>
              cases h4'' : (contains c.SupportFilenames fname) <;>
                simp_all [classifyPass2, List.find?, h3.1, h3.2]
          · simp only [Bool.or_eq_true] at h3 h4
            push_neg at h3 h4
            simp [classifyPass2, h1, h2, h3.1, h3.2, h4.1, h4.2, List.find?, ih]

/-- The second pass never yields vendor or generated. -/
theorem classifyPass2_not_firstpass (c : NodeJSPackageConfig) (relpath fname : String)
    (parts : List String) :
    classifyPass2 c relpath fname parts ≠ some Category.vendor
      ∧ classifyPass2 c relpath fname parts ≠ some Category.generated := by
  rw [classifyPass2_eq_find]
  cases h : parts.find? _ with
  | none => simp
  | some part =>
    by_cases hs : contains c.ScriptDirs part <;>
      by_cases he : contains c.ExampleDirs part <;>
        by_cases ht : (contains c.TestDirs part = true ∨ hasAnySuffix c.TestSuffixes relpath = true) <;>
          exact ⟨by simp [hs, he, ht], by simp [hs, he, ht]⟩

/-- Folding collected files through `addJSFile` extends each category list
by exactly the joined paths of the files classified into that category, in
walk order. -/
theorem catFiles_foldl (c : NodeJSPackageConfig) (cat : Category)
    (l : List (List String × String)) (u : NodeJSPackage) :
    catFiles cat (l.foldl (addJSFile c) u) =
      catFiles cat u
        ++ (l.filter (fun f => classify c f.1 f.2 == cat)).map (fun f => joinPath f.1) := by
  induction l generalizing u with
  | nil => simp
  | cons f l ih =>
    rw [List.foldl_cons, ih, List.filter_cons]
    have hstep : catFiles cat (addJSFile c u f) =
        catFiles cat u ++ (if classify c f.1 f.2 == cat then [joinPath f.1] else []) := by
      cases hcl : classify c f.1 f.2 <;> cases cat <;> simp [addJSFile, hcl, catFiles]
    rw [hstep]
    by_cases hc : (classify c f.1 f.2 == cat) = true
    · simp [hc]
    · simp [hc]

/-- The first pass decides vendor exactly when it yields vendor. -/
theorem classify_eq_vendor_iff (c : NodeJSPackageConfig) (parts : List String) (fname : String) :
    classify c parts fname = Category.vendor ↔
      classifyPass1 c (joinPath parts) parts = some Category.vendor := by
  simp only [classify]
  cases h : classifyPass1 c (joinPath parts) parts with
  | some cat => simp
  | none =>
    have h2 := classifyPass2_not_firstpass c (joinPath parts) fname parts
    cases hg : classifyPass2 c (joinPath parts) fname parts with
    | none => simp
    | some x =>
      simp only [Option.getD_some]
      constructor
      · intro hx
        exact absurd (hg.trans (by rw [hx])) h2.1
      · intro hx
        cases hx

/-- The first pass decides generated exactly when it yields generated. -/
theorem classify_eq_generated_iff (c : NodeJSPackageConfig) (parts : List String)
    (fname : String) :
    classify c parts fname = Category.generated ↔
      classifyPass1 c (joinPath parts) parts = some Category.generated := by
  simp only [classify]
  cases h : classifyPass1 c (joinPath parts) parts with
  | some cat => simp
  | none =>
    have h2 := classifyPass2_not_firstpass c (joinPath parts) fname parts
    cases hg : classifyPass2 c (joinPath parts) fname parts with
    | none => simp
    | some x =>
      simp only [Option.getD_some]
      constructor
      · intro hx
        exact absurd (hg.trans (by rw [hx])) h2.2
      · intro hx
        cases hx

/-- C1 (counterexample to the claim as stated): under the default
configuration, the file `dist/vendor/a.js` of `c1Tree` has the configured
vendor-directory name `vendor` among its path segments, yet the populator
classifies it generated, not vendor, because the first pass reaches the
generated directory `dist` at an earlier segment. -/
theorem c1_counterexample :
    contains Default.NodeJSPackage.VendorDirs "vendor" = true
      ∧ "vendor" ∈ ["dist", "vendor", "a.js"]
      ∧ (readNodeJSPackage Default.NodeJSPackage "pkg" "" c1Tree).GeneratedFiles
          = ["dist/vendor/a.js"]
      ∧ (readNodeJSPackage Default.NodeJSPackage "pkg" "" c1Tree).VendorFiles = [] := by
  decide

/-- C1 (amended): vendor/generated detection is a first pass, evaluated
before every other category; but within that pass the segments are scanned
in order and, at each segment, vendor-directory membership is checked before
the generated check (that segment in a generated directory, or the whole
relative path carrying a configured generated suffix).  The first segment
that fires decides the category: a file is vendor exactly when that first
firing segment is in the vendor-directory list, and generated exactly when
it is not — regardless of example, script, test, or support directories on
the path. -/
theorem nodeJS_vendor_generated_first_pass (c : NodeJSPackageConfig) (reldir pj : String)
    (root : FSNode) :
    ((readNodeJSPackage c reldir pj root).VendorFiles =
        ((nodeCollect root).filter (fun f => classify c f.1 f.2 == Category.vendor)).map
          (fun f => joinPath f.1))
    ∧ ((readNodeJSPackage c reldir pj root).GeneratedFiles =
        ((nodeCollect root).filter (fun f => classify c f.1 f.2 == Category.generated)).map
          (fun f => joinPath f.1))
    ∧ (∀ (parts : List String) (fname : String),
        (classify c parts fname = Category.vendor ↔
          ∃ part, parts.find? (fun part => contains c.VendorDirs part
              || contains c.GeneratedDirs part
              || hasAnySuffix c.GeneratedSuffixes (joinPath parts)) = some part
            ∧ contains c.VendorDirs part = true)
        ∧ (classify c parts fname = Category.generated ↔
          ∃ part, parts.find? (fun part => contains c.VendorDirs part
              || contains c.GeneratedDirs part
              || hasAnySuffix c.GeneratedSuffixes (joinPath parts)) = some part
            ∧ contains c.VendorDirs part = false)) := by
  refine ⟨?_, ?_, ?_⟩
  · simpa [readNodeJSPackage, catFiles] using
      catFiles_foldl c .vendor (nodeCollect root) { Dir := reldir, PackageJSON := some pj }
  · simpa [readNodeJSPackage, catFiles] using
      catFiles_foldl c .generated (nodeCollect root) { Dir := reldir, PackageJSON := some pj }
  · intro parts fname
    constructor
    · rw [classify_eq_vendor_iff, classifyPass1_eq_find, Option.map_eq_some']
      constructor
      · rintro ⟨part, hfind, hpart⟩
        refine ⟨part, hfind, ?_⟩
        by_cases hv : contains c.VendorDirs part = true
        · exact hv
        · simp [hv] at hpart
      · rintro ⟨part, hfind, hpart⟩
        exact ⟨part, hfind, by simp [hpart]⟩
    · rw [classify_eq_generated_iff, classifyPass1_eq_find, Option.map_eq_some']
      constructor
      · rintro ⟨part, hfind, hpart⟩
        refine ⟨part, hfind, ?_⟩
        by_cases hv : contains c.VendorDirs part = true
        · simp [hv] at hpart
        · simp [hv]
      · rintro ⟨part, hfind, hpart⟩
        exact ⟨part, hfind, by simp [hpart]⟩

/-- The second pass decides script exactly when the first pass matched
nothing and the second pass yields script. -/
theorem classify_eq_script_iff (c : NodeJSPackageConfig) (parts : List String) (fname : String) :
    classify c parts fname = Category.script ↔
      classifyPass1 c (joinPath parts) parts = none
        ∧ classifyPass2 c (joinPath parts) fname parts = some Category.script := by
  simp only [classify]
  cases h : classifyPass1 c (joinPath parts) parts with
  | some cat =>
    simp only [Option.some.injEq, false_and, iff_false, reduceCtorEq]
    have := classifyPass1_eq_find c (joinPath parts) parts
    rw [h] at this
    rw [Option.eq_some_iff_get_eq] at *
    intro hcat
    rcases Option.map_eq_some'.mp this.symm with ⟨part, _, hpart⟩
    subst hcat
    by_cases hv : contains c.VendorDirs part = true <;> simp [hv] at hpart
  | none =>
    simp only [true_and]
    cases hg : classifyPass2 c (joinPath parts) fname parts with
    | none => simp
    | some x => simp [eq_comm]

/-- The second pass decides example exactly when the first pass matched
nothing and the second pass yields example. -/
theorem classify_eq_examples_iff (c : NodeJSPackageConfig) (parts : List String)
    (fname : String) :
    classify c parts fname = Category.examples ↔
      classifyPass1 c (joinPath parts) parts = none
        ∧ classifyPass2 c (joinPath parts) fname parts = some Category.examples := by
  simp only [classify]
  cases h : classifyPass1 c (joinPath parts) parts with
  | some cat =>
    simp only [Option.some.injEq, false_and, iff_false, reduceCtorEq]
    have := classifyPass1_eq_find c (joinPath parts) parts
    rw [h] at this
    intro hcat
    rcases Option.map_eq_some'.mp this.symm with ⟨part, _, hpart⟩
    subst hcat
    by_cases hv : contains c.VendorDirs part = true <;> simp [hv] at hpart
  | none =>
    simp only [true_and]
    cases hg : classifyPass2 c (joinPath parts) fname parts with
    | none => simp
    | some x => simp [eq_comm]

/-- C5 (counterexample to the claim as stated): under the default
configuration, the file `examples/bin/a.js` of `c5Tree` matches neither
vendor nor generated, and the configured script-directory name `bin` is
among its segments; yet the populator classifies it example, not script,
because the second pass reaches the example directory `examples` at an
earlier segment. -/
theorem c5_counterexample :
    contains Default.NodeJSPackage.ScriptDirs "bin" = true
      ∧ "bin" ∈ ["examples", "bin", "a.js"]
      ∧ classifyPass1 Default.NodeJSPackage (joinPath ["examples", "bin", "a.js"])
          ["examples", "bin", "a.js"] = none
      ∧ (readNodeJSPackage Default.NodeJSPackage "pkg" "" c5Tree).ExampleFiles
          = ["examples/bin/a.js"]
      ∧ (readNodeJSPackage Default.NodeJSPackage "pkg" "" c5Tree).ScriptFiles = [] := by
  decide

/-- C5 (amended): when neither vendor nor generated matched, the second pass
checks script, example, test, support in that order — but per segment,
scanning the segments left to right: the first segment firing any of the
four criteria decides, by the order of the checks at that segment.  A
script-directory segment therefore yields script only when no earlier
segment fires example, test (including the whole-path test-suffix check,
which fires at every segment), or support. -/
theorem nodeJS_second_pass_order (c : NodeJSPackageConfig) (reldir pj : String)
    (root : FSNode) :
    ((readNodeJSPackage c reldir pj root).ScriptFiles =
        ((nodeCollect root).filter (fun f => classify c f.1 f.2 == Category.script)).map
          (fun f => joinPath f.1))
    ∧ ((readNodeJSPackage c reldir pj root).ExampleFiles =
        ((nodeCollect root).filter (fun f => classify c f.1 f.2 == Category.examples)).map
          (fun f => joinPath f.1))
    ∧ (∀ (parts : List String) (fname : String),
        classify c parts fname = Category.script ↔
          classifyPass1 c (joinPath parts) parts = none
            ∧ ∃ part, parts.find? (fun part => contains c.ScriptDirs part
                || contains c.ExampleDirs part || contains c.TestDirs part
                || hasAnySuffix c.TestSuffixes (joinPath parts)
                || contains c.SupportDirs part
                || contains c.SupportFilenames fname) = some part
              ∧ contains c.ScriptDirs part = true) := by
  refine ⟨?_, ?_, ?_⟩
  · simpa [readNodeJSPackage, catFiles] using
      catFiles_foldl c .script (nodeCollect root) { Dir := reldir, PackageJSON := some pj }
  · simpa [readNodeJSPackage, catFiles] using
      catFiles_foldl c .examples (nodeCollect root) { Dir := reldir, PackageJSON := some pj }
  · intro parts fname
    rw [classify_eq_script_iff]
    constructor
    · rintro ⟨h1, h2⟩
      refine ⟨h1, ?_⟩
      rw [classifyPass2_eq_find, Option.map_eq_some'] at h2
      rcases h2 with ⟨part, hfind, hpart⟩
      refine ⟨part, hfind, ?_⟩
      by_cases hs : contains c.ScriptDirs part = true
      · exact hs
      · by_cases he : contains c.ExampleDirs part = true
        · simp [hs, he] at hpart
        · by_cases ht : (contains c.TestDirs part || hasAnySuffix c.TestSuffixes (joinPath parts)) = true
          · simp [hs, he, ht] at hpart
          · simp [hs, he, ht] at hpart
    · rintro ⟨h1, part, hfind, hpart⟩
      refine ⟨h1, ?_⟩
      rw [classifyPass2_eq_find, Option.map_eq_some']
      exact ⟨part, hfind, by simp [hpart]⟩

/-- C3 (evaluation at the failing input): with source roots `goA/src` and
`goB/src` and package directory `goB/src/foo`, the earlier root contains an
existing directory `foo` at the same relative subpath (`goA/src/foo`), so by
the claim the import path should be left empty; but the code's shadow probe
joins `"src"` onto a root that already ends in `/src` — it tests
`goA/src/src/foo`, which does not exist — and therefore resolves
`ImportPath = "foo"`, `Root = "goB"`. -/
theorem c3_shadow_check_divergence :
    isDir c3fs ["goA", "src", "foo"] = true
      ∧ isDir c3fs ["goA", "src", "src", "foo"] = false
      ∧ hasSubdir ["goB", "src"] ["goB", "src", "foo"] = some ["foo"]
      ∧ (readGoPackage c3fs c3srcdirs false ["goB", "src", "foo"] "foo" {}).ImportPath = "foo"
      ∧ (readGoPackage c3fs c3srcdirs false ["goB", "src", "foo"] "foo" {}).Root = "goB" := by
  decide

/-- C4 (evaluation at the failing input): scanning a tree with a Python
package `t/mypkg` containing a nested Python package `t/mypkg/qux` emits
only the outer package — the Python profile is `TopLevelOnly`, so its match
stops descent and the nested package is never visited, although the
repository's own test expects both units. -/
theorem c4_nested_python_not_emitted :
    (Scan Default.SkipDirs (AllProfiles Default {}) pyTree).units =
        [(["t", "mypkg"], .python { Dir := "t/mypkg" })]
      ∧ (Scan Default.SkipDirs (AllProfiles Default {}) pyTree).err = none
      ∧ ∀ pu ∈ (Scan Default.SkipDirs (AllProfiles Default {}) pyTree).units,
          pu.2 ≠ Unit'.python { Dir := "t/mypkg/qux" } := by
  refine ⟨by decide, by decide, ?_⟩
  decide

/-- C8 (confirmed): setting `PathIndependent` yields exactly the package of
the flagless run with `Root`, `SrcRoot`, `PkgRoot` and `BinDir` cleared;
and under either flag `Dir` is the base-relative directory while the three
import-position maps are nil. -/
theorem goPackage_path_independent (fs srcdirs : List (List String)) (absdir : List String)
    (reldir : String) (pkg0 : GoPackage) :
    (readGoPackage fs srcdirs true absdir reldir pkg0 =
        { readGoPackage fs srcdirs false absdir reldir pkg0 with
            Root := "", SrcRoot := "", PkgRoot := "", BinDir := "" })
      ∧ ∀ flag : Bool,
          (readGoPackage fs srcdirs flag absdir reldir pkg0).Dir = reldir
          ∧ (readGoPackage fs srcdirs flag absdir reldir pkg0).ImportPos = none
          ∧ (readGoPackage fs srcdirs flag absdir reldir pkg0).TestImportPos = none
          ∧ (readGoPackage fs srcdirs flag absdir reldir pkg0).XTestImportPos = none := by
  cases pkg0
  constructor
  · cases h : resolveImportPath fs absdir srcdirs [] with
    | none => simp [readGoPackage, h]
    | some sr =>
      cases sr
      simp [readGoPackage, h]
  · intro flag
    cases h : resolveImportPath fs absdir srcdirs [] with
    | none => cases flag <;> simp [readGoPackage, h]
    | some sr =>
      cases sr
      cases flag <;> simp [readGoPackage, h]

/-- C9 (evaluation at the failing input): with the default Ruby
configuration (`AppSrcDirs = [app, lib, config, db]`) and an app root
containing `config.ru`, `app/x.rb` and `lib/y.rb`, the collector run on
`app` alone would yield `app/x.rb`, and both configured directories exist —
yet `SrcFiles` holds only `lib/y.rb`, because each loop iteration assigns
(rather than appends) the collection of the current existing directory. -/
theorem c9_rubyapp_srcfiles_overwritten :
    collectFilesEntries ".rb" ["app"] [FSNode.file "x.rb"] = ["app/x.rb"]
      ∧ (findNode c9Tree.entries ["app"]).isSome = true
      ∧ (findNode c9Tree.entries ["lib"]).isSome = true
      ∧ (readRubyApp Default.Ruby "myapp" c9Tree).SrcFiles = ["lib/y.rb"]
      ∧ (readRubyApp Default.Ruby "myapp" c9Tree).TestFiles = [] := by
  decide

/-- C10 (confirmed): `Scan` is not atomic or fail-fast across profiles —
its unit list is the concatenation of every profile's independent walk
output (so walks after a failed one still run and contribute), and its
error is the last profile's walk error, overwriting any earlier one.  The
concrete scenario: the Go profile's walk aborts on the unreadable directory
`r/pkg/bad`, but a scan running the Go profile and then the Python profile
(whose TopLevelOnly match skips `bad`) returns both profiles' units and no
error — the earlier error is lost. -/
theorem scan_error_not_failfast :
    (∀ (skipDirs : List String) (profiles : List Profile) (root : FSNode),
      (Scan skipDirs profiles root).units =
          (profiles.map (fun p => (walkNode skipDirs p true [root.name] root).units)).flatten
        ∧ (Scan skipDirs profiles root).err =
            ((profiles.getLast?).map
              (fun p => (walkNode skipDirs p true [root.name] root).err)).getD none)
    ∧ ((walkNode [] (goProfile Default {}) true ["r"] c10Tree).err = some "open r/pkg/bad"
      ∧ (Scan [] [goProfile Default {}, pythonProfile] c10Tree).err = none
      ∧ (Scan [] [goProfile Default {}, pythonProfile] c10Tree).units =
          [(["r", "apkg"], .goPkg { Dir := "r/apkg" }),
           (["r", "pkg"], .python { Dir := "r/pkg" })]) := by
  constructor
  · intro skipDirs profiles root
    induction profiles using List.reverseRecOn with
    | nil => simp [Scan]
    | append_singleton ps p ih =>
      unfold Scan at *
      rw [List.foldl_append]
      refine ⟨?_, ?_⟩
      · simp only [List.foldl_cons, List.foldl_nil, List.map_append, List.flatten_append,
          List.map_cons, List.map_nil, List.flatten_cons, List.flatten_nil, List.append_nil]
        rw [ih.1]
      · simp
  · exact ⟨by decide, by decide, by decide⟩

/-! ## Joined path strings determine their segments -/

theorem splitSlashChars_noslash (cs : List Char) (h : '/' ∉ cs) :
    splitSlashChars cs = [cs] := by
  induction cs with
  | nil => rfl
  | cons c cs ih =>
    have hc : c ≠ '/' := fun hc => h (hc ▸ List.mem_cons_self c cs)
    have hcs : '/' ∉ cs := fun hm => h (List.mem_cons_of_mem c hm)
    simp [splitSlashChars, hc, ih hcs]

theorem splitSlashChars_append (a cs : List Char) (h : '/' ∉ a) :
    splitSlashChars (a ++ '/' :: cs) = a :: splitSlashChars cs := by
  induction a with
  | nil => simp [splitSlashChars]
  | cons x a ih =>
    have hx : x ≠ '/' := fun hc => h (hc ▸ List.mem_cons_self x a)
    have ha : '/' ∉ a := fun hm => h (List.mem_cons_of_mem x hm)
    simp only [List.cons_append, splitSlashChars, hx, if_false, List.append_eq]
    rw [ih ha]

theorem noSlash_not_mem (s : String) (h : noSlash s = true) : '/' ∉ s.data := by
  simpa [noSlash] using h

theorem splitSlash_joinPath (l : List String) (hne : l ≠ []) (h : ∀ s ∈ l, noSlash s = true) :
    splitSlash (joinPath l) = l := by
  induction l with
  | nil => exact absurd rfl hne
  | cons x t ih =>
    cases t with
    | nil =>
      have hx := noSlash_not_mem x (h x (List.mem_singleton.mpr rfl))
      simp [joinPath, splitSlash, splitSlashChars_noslash x.data hx]
    | cons y t' =>
      have hx := noSlash_not_mem x (h x (List.mem_cons_self x _))
      have hdata : (joinPath (x :: y :: t')).data = x.data ++ '/' :: (joinPath (y :: t')).data := by
        show (x ++ "/" ++ joinPath (y :: t')).data = _
        rw [String.data_append, String.data_append]
        have hslash : ("/" : String).data = ['/'] := by decide
        rw [hslash, List.append_assoc]
        rfl
      have hrest : ∀ s ∈ y :: t', noSlash s = true := fun s hs => h s (List.mem_cons_of_mem x hs)
      have := ih (by simp) hrest
      simp only [splitSlash, hdata, splitSlashChars_append x.data _ hx, List.map_cons] at *
      rw [this]

theorem joinPath_inj (l₁ l₂ : List String) (h₁ : l₁ ≠ []) (h₂ : l₂ ≠ [])
    (hs₁ : ∀ s ∈ l₁, noSlash s = true) (hs₂ : ∀ s ∈ l₂, noSlash s = true)
    (heq : joinPath l₁ = joinPath l₂) : l₁ = l₂ := by
  rw [← splitSlash_joinPath l₁ h₁ hs₁, ← splitSlash_joinPath l₂ h₂ hs₂, heq]

/-! ## Correspondence of the populator walk with the claim-side path
predicate -/

theorem getLast?_cons_ne {α : Type} (a : α) (l : List α) (h : l ≠ []) :
    (a :: l).getLast? = l.getLast? := by
  cases l with
  | nil => exact absurd rfl h
  | cons b t => rw [List.getLast?_cons_cons]

theorem dirHasFile_iff (es : List FSNode) (n : String) :
    dirHasFile es n = true ↔ FSNode.file n ∈ es := by
  simp only [dirHasFile, List.any_eq_true]
  constructor
  · rintro ⟨e, he, hm⟩
    cases e with
    | file n' =>
      simp only [beq_iff_eq] at hm
      subst hm
      exact he
    | dir _ _ _ => cases hm
  · intro h
    exact ⟨.file n, h, by simp⟩

theorem findDirIn_nil (seg : String) : findDirIn [] seg = none := rfl

theorem findDirIn_cons (e : FSNode) (es : List FSNode) (seg : String) :
    findDirIn (e :: es) seg =
      match e with
      | .dir n rerr es' => if n == seg then some (.dir n rerr es') else findDirIn es seg
      | .file _ => findDirIn es seg := by
  cases e with
  | file n => simp [findDirIn, List.findSome?_cons]
  | dir n rerr es' =>
    by_cases h : n = seg <;> simp [findDirIn, List.findSome?_cons, h]

theorem findDirIn_some (es : List FSNode) (seg : String) (d : FSNode)
    (h : findDirIn es seg = some d) :
    d ∈ es ∧ ∃ rerr es', d = .dir seg rerr es' := by
  induction es with
  | nil => cases h
  | cons e es ih =>
    rw [findDirIn_cons] at h
    cases e with
    | file n =>
      rcases ih h with ⟨hm, hd⟩
      exact ⟨List.mem_cons_of_mem _ hm, hd⟩
    | dir n rerr es' =>
      by_cases hn : (n == seg) = true
      · simp only [hn, if_true, Option.some.injEq] at h
        rw [beq_iff_eq] at hn
        subst hn
        exact ⟨h ▸ List.mem_cons_self _ _, h ▸ ⟨rerr, es', rfl⟩⟩
      · simp only [hn, if_false] at h
        rcases ih h with ⟨hm, hd⟩
        exact ⟨List.mem_cons_of_mem _ hm, hd⟩

theorem findDirIn_none (es : List FSNode) (seg : String)
    (h : contains (namesOf es) seg = false) : findDirIn es seg = none := by
  cases hf : findDirIn es seg with
  | none => rfl
  | some d =>
    rcases findDirIn_some es seg d hf with ⟨hm, rerr, es', rfl⟩
    have : seg ∈ namesOf es := by
      simpa [namesOf, FSNode.name] using List.mem_map_of_mem FSNode.name hm
    rw [(contains_iff_mem _ _).mpr this] at h
    cases h

theorem wfList_mem (es : List FSNode) (e : FSNode) (he : e ∈ es) (h : wfList es = true) :
    wfNode e = true := by
  induction es with
  | nil => cases he
  | cons x es ih =>
    simp only [wfList, Bool.and_eq_true] at h
    rcases List.mem_cons.mp he with rfl | hm
    · exact h.1
    · exact ih hm h.2

theorem wfNode_dir (n : String) (rerr : Bool) (es : List FSNode)
    (h : wfNode (.dir n rerr es) = true) :
    noSlash n = true ∧ rerr = false ∧ allDistinct (namesOf es) = true ∧ wfList es = true := by
  simp only [wfNode, Bool.and_eq_true, Bool.not_eq_true'] at h
  exact ⟨h.1.1.1, h.1.1.2, h.1.2, h.2⟩

theorem allDistinct_cons (x : String) (xs : List String) (h : allDistinct (x :: xs) = true) :
    contains xs x = false ∧ allDistinct xs = true := by
  simp only [allDistinct, Bool.and_eq_true, Bool.not_eq_true'] at h
  exact h

theorem checkPath_ne_nil (q : List String) (es : List FSNode) (h : checkPath q es = true) :
    q ≠ [] := by
  intro hq
  subst hq
  simp [checkPath] at h

theorem checkPath_nil_entries (q : List String) : checkPath q [] = false := by
  match q with
  | [] => rfl
  | [n] => simp [checkPath, dirHasFile]
  | seg :: r :: t => simp [checkPath, findDirIn_nil]

theorem checkPath_single_file (q : List String) (n : String) :
    checkPath q [FSNode.file n] = true ↔ q = [n] ∧ goHasSuffix n ".js" = true := by
  match q with
  | [] => simp [checkPath]
  | [seg] =>
    simp only [checkPath, dirHasFile, List.any_cons, List.any_nil, Bool.or_false,
      Bool.and_eq_true, beq_iff_eq, List.cons.injEq, and_true]
    constructor
    · rintro ⟨rfl, hs⟩
      exact ⟨rfl, hs⟩
    · rintro ⟨rfl, hs⟩
      exact ⟨rfl, hs⟩
  | seg :: r :: t =>
    simp [checkPath, findDirIn, List.findSome?_cons]

theorem checkPath_single_dir (q : List String) (n : String) (rerr : Bool) (es' : List FSNode) :
    checkPath q [FSNode.dir n rerr es'] = true ↔
      ∃ q', q = n :: q' ∧ (n == "node_modules") = false
        ∧ dirHasFile es' "package.json" = false ∧ checkPath q' es' = true := by
  match q with
  | [] => simp [checkPath]
  | [seg] =>
    simp only [checkPath, dirHasFile, List.any_cons, List.any_nil, Bool.or_false,
      Bool.false_and, Bool.false_eq_true, false_iff]
    rintro ⟨q', hq, _, _, hcp⟩
    have : q' = [] := by
      cases q' with
      | nil => rfl
      | cons a b => cases hq
    subst this
    simp [checkPath] at hcp
  | seg :: r :: t =>
    by_cases hn : (n == seg) = true
    · rw [beq_iff_eq] at hn
      subst hn
      simp only [checkPath, findDirIn_cons, findDirIn_nil, beq_self_eq_true, if_true]
      constructor
      · intro h
        simp only [bne, Bool.and_eq_true, Bool.not_eq_true'] at h
        exact ⟨r :: t, rfl, h.1.1, by simpa using h.1.2, h.2⟩
      · rintro ⟨q', hq, hnm, hpkg, hcp⟩
        have hq' : q' = r :: t := by
          cases hq
          rfl
        subst hq'
        simp [bne, hnm, hpkg, hcp]
    · simp only [checkPath, findDirIn_cons, findDirIn_nil, hn, if_false]
      constructor
      · intro h
        cases h
      · rintro ⟨q', hq, _, _, _⟩
        cases hq
        simp at hn

theorem checkPath_cons (q : List String) (e : FSNode) (es : List FSNode)
    (hnd : contains (namesOf es) e.name = false) :
    checkPath q (e :: es) = (checkPath q [e] || checkPath q es) := by
  match q with
  | [] => simp [checkPath]
  | [seg] =>
    cases e with
    | file n =>
      simp only [checkPath, dirHasFile, List.any_cons, List.any_nil, Bool.or_false]
      cases hn : (n == seg) <;> cases hs : goHasSuffix seg ".js" <;>
        cases hd : (es.any fun e => match e with | .file n' => n' == seg | .dir _ _ _ => false) <;>
          simp [hn, hs, hd]
    | dir n rerr es' =>
      simp [checkPath, dirHasFile, List.any_cons]
  | seg :: r :: t =>
    cases e with
    | file n =>
      simp [checkPath, findDirIn_cons, findDirIn_nil]
    | dir n rerr es' =>
      by_cases hn : (n == seg) = true
      · simp only [FSNode.name] at hnd
        have hseg : seg ∈ namesOf es → False := by
          intro hm
          rw [beq_iff_eq] at hn
          subst hn
          rw [(contains_iff_mem _ _).mpr hm] at hnd
          cases hnd
        have hnone : findDirIn es seg = none := by
          cases hf : findDirIn es seg with
          | none => rfl
          | some d =>
            rcases findDirIn_some es seg d hf with ⟨hm, rerr', es'', rfl⟩
            exact absurd (by simpa [namesOf] using List.mem_map_of_mem FSNode.name hm)
              (fun h => hseg h)
        simp [checkPath, findDirIn_cons, findDirIn_nil, hn, hnone]
      · simp [checkPath, findDirIn_cons, findDirIn_nil, hn]

mutual
/-- A file pair is collected from one entry by the populator walk exactly
when a path through that entry satisfies the claim-side predicate. -/
theorem nodeWalkEntry_mem (pfx : List String) (e : FSNode) (hwf : wfNode e = true)
    (f : List String × String) :
    f ∈ nodeWalkEntry pfx e ↔
      ∃ q, checkPath q [e] = true ∧ f = (pfx ++ q, q.getLast?.getD "") := by
  cases e with
  | file n =>
    by_cases hs : goHasSuffix n ".js" = true
    · simp only [nodeWalkEntry, hs, if_true, List.mem_singleton]
      constructor
      · rintro rfl
        exact ⟨[n], (checkPath_single_file [n] n).mpr ⟨rfl, hs⟩, by simp⟩
      · rintro ⟨q, hq, rfl⟩
        rcases (checkPath_single_file q n).mp hq with ⟨rfl, _⟩
        simp
    · rw [show nodeWalkEntry pfx (.file n) = [] by simp [nodeWalkEntry, hs]]
      simp only [List.not_mem_nil, false_iff, not_exists, not_and]
      intro q hq
      rcases (checkPath_single_file q n).mp hq with ⟨rfl, hs'⟩
      exact absurd hs' hs
  | dir n rerr es' =>
    obtain ⟨hns, hre, hdist, hwfl⟩ := wfNode_dir n rerr es' hwf
    subst hre
    by_cases hnm : (n == "node_modules") = true
    · rw [show nodeWalkEntry pfx (.dir n false es') = [] by simp [nodeWalkEntry, hnm]]
      simp only [List.not_mem_nil, false_iff, not_exists, not_and]
      intro q hq
      rcases (checkPath_single_dir q n false es').mp hq with ⟨q', rfl, hnm', _, _⟩
      rw [hnm] at hnm'
      cases hnm'
    · by_cases hpkg : dirHasFile es' "package.json" = true
      · rw [show nodeWalkEntry pfx (.dir n false es') = [] by simp [nodeWalkEntry, hnm, hpkg]]
        simp only [List.not_mem_nil, false_iff, not_exists, not_and]
        intro q hq
        rcases (checkPath_single_dir q n false es').mp hq with ⟨q', rfl, _, hpkg', _⟩
        rw [hpkg] at hpkg'
        cases hpkg'
      · rw [show nodeWalkEntry pfx (.dir n false es') = nodeWalkEntries (pfx ++ [n]) es' by
          simp [nodeWalkEntry, hnm, hpkg]]
        rw [nodeWalkEntries_mem (pfx ++ [n]) es' hwfl hdist f]
        constructor
        · rintro ⟨q', hq', rfl⟩
          have hq'ne := checkPath_ne_nil q' es' hq'
          refine ⟨n :: q',
            (checkPath_single_dir (n :: q') n false es').mpr
              ⟨q', rfl, by simp [hnm], by simp [hpkg], hq'⟩, ?_⟩
          rw [getLast?_cons_ne n q' hq'ne]
          simp
        · rintro ⟨q, hq, rfl⟩
          rcases (checkPath_single_dir q n false es').mp hq with ⟨q', rfl, _, _, hq'⟩
          have hq'ne := checkPath_ne_nil q' es' hq'
          refine ⟨q', hq', ?_⟩
          rw [getLast?_cons_ne n q' hq'ne]
          simp

/-- A file pair is collected from a list of sibling entries exactly when a
path through one of them satisfies the claim-side predicate. -/
theorem nodeWalkEntries_mem (pfx : List String) (es : List FSNode)
    (hwf : wfList es = true) (hdist : allDistinct (namesOf es) = true)
    (f : List String × String) :
    f ∈ nodeWalkEntries pfx es ↔
      ∃ q, checkPath q es = true ∧ f = (pfx ++ q, q.getLast?.getD "") := by
  cases es with
  | nil =>
    simp [nodeWalkEntries, checkPath_nil_entries]
  | cons e es' =>
    have hwf2 : wfNode e = true ∧ wfList es' = true := by
      simpa [wfList, Bool.and_eq_true] using hwf
    have hdist2 := allDistinct_cons e.name (namesOf es')
      (by simpa [namesOf] using hdist)
    rw [show nodeWalkEntries pfx (e :: es') = nodeWalkEntry pfx e ++ nodeWalkEntries pfx es'
        from rfl,
      List.mem_append, nodeWalkEntry_mem pfx e hwf2.1 f,
      nodeWalkEntries_mem pfx es' hwf2.2 hdist2.2 f]
    constructor
    · rintro (⟨q, hq, rfl⟩ | ⟨q, hq, rfl⟩)
      · exact ⟨q, by rw [checkPath_cons q e es' hdist2.1]; simp [hq], rfl⟩
      · exact ⟨q, by rw [checkPath_cons q e es' hdist2.1]; simp [hq], rfl⟩
    · rintro ⟨q, hq, rfl⟩
      rw [checkPath_cons q e es' hdist2.1, Bool.or_eq_true] at hq
      rcases hq with h | h
      · exact Or.inl ⟨q, h, rfl⟩
      · exact Or.inr ⟨q, h, rfl⟩
end

/-- A file pair is collected by the populator walk from the package root
exactly when its path is eligible in the claim's sense. -/
theorem nodeCollect_mem (root : FSNode) (hwf : wfNode root = true) (f : List String × String) :
    f ∈ nodeCollect root ↔ ∃ q, eligible root q = true ∧ f = (q, q.getLast?.getD "") := by
  cases root with
  | file n => simp [nodeCollect, eligible]
  | dir n rerr es =>
    obtain ⟨hns, hre, hdist, hwfl⟩ := wfNode_dir n rerr es hwf
    subst hre
    by_cases hnm : (n == "node_modules") = true
    · simp [nodeCollect, eligible, hnm, bne]
    · rw [show nodeCollect (.dir n false es) = nodeWalkEntries [] es by
        simp [nodeCollect, hnm]]
      rw [nodeWalkEntries_mem [] es hwfl hdist f]
      simp [eligible, bne, hnm]

/-- The segments of a path accepted by the claim-side predicate are names
of well-formed tree nodes, hence free of '/'. -/
theorem checkPath_segments (q : List String) (es : List FSNode)
    (hwf : wfList es = true) (hq : checkPath q es = true) :
    q ≠ [] ∧ ∀ s ∈ q, noSlash s = true := by
  induction q generalizing es with
  | nil => exact absurd hq (by simp [checkPath])
  | cons seg q' ih =>
    refine ⟨by simp, ?_⟩
    cases q' with
    | nil =>
      simp only [checkPath, Bool.and_eq_true] at hq
      have hfmem : FSNode.file seg ∈ es := (dirHasFile_iff es seg).mp hq.1
      have hns : noSlash seg = true := by
        simpa [wfNode] using wfList_mem es (.file seg) hfmem hwf
      intro s hs
      rcases List.mem_singleton.mp hs with rfl
      exact hns
    | cons r t =>
      cases hf : findDirIn es seg with
      | none =>
        simp only [checkPath, hf] at hq
        cases hq
      | some d =>
        rcases findDirIn_some es seg d hf with ⟨hmem, rerr', es'', rfl⟩
        obtain ⟨hns, hre, hdist'', hwf''⟩ :=
          wfNode_dir seg rerr' es'' (wfList_mem es _ hmem hwf)
        simp only [checkPath, hf, Bool.and_eq_true] at hq
        have hrest := ih es'' hwf'' hq.2
        intro s hs
        rcases List.mem_cons.mp hs with rfl | hs'
        · exact hns
        · exact hrest.2 s hs'

/-- Exactly one of the seven category lists contains any path beyond the
seven-category count. -/
theorem countCategories_eq_one (cat0 : Category) :
    (allCategories.filter (fun cat => decide (cat = cat0))).length = 1 := by
  cases cat0 <;> rfl

/-- Every eligible file path of a well-formed package tree lands in exactly
one of the seven category lists of the populated NodeJSPackage. -/
theorem eligible_exactly_one (c : NodeJSPackageConfig) (reldir pj : String) (root : FSNode)
    (hwf : wfNode root = true) (q : List String) (he : eligible root q = true) :
    listsContaining (readNodeJSPackage c reldir pj root) (joinPath q) = 1 := by
  cases root with
  | file n => simp [eligible] at he
  | dir rn rerr es =>
    obtain ⟨hrns, hre, hdist, hwfl⟩ := wfNode_dir rn rerr es hwf
    subst hre
    have hcp : checkPath q es = true := by
      simp only [eligible, Bool.and_eq_true] at he
      exact he.2
    obtain ⟨hqne, hqns⟩ := checkPath_segments q es hwfl hcp
    have hfmem : (q, q.getLast?.getD "") ∈ nodeCollect (.dir rn false es) :=
      (nodeCollect_mem _ hwf _).mpr ⟨q, he, rfl⟩
    have hfold : ∀ cat, catFiles cat (readNodeJSPackage c reldir pj (.dir rn false es)) =
        ((nodeCollect (.dir rn false es)).filter (fun f => classify c f.1 f.2 == cat)).map
          (fun f => joinPath f.1) := by
      intro cat
      show catFiles cat ((nodeCollect _).foldl (addJSFile c) _) = _
      rw [catFiles_foldl]
      cases cat <;> simp [catFiles]
    have hin : joinPath q ∈
        catFiles (classify c q (q.getLast?.getD ""))
          (readNodeJSPackage c reldir pj (.dir rn false es)) := by
      rw [hfold]
      exact List.mem_map_of_mem _ (List.mem_filter.mpr ⟨hfmem, by simp⟩)
    have hnotin : ∀ cat, cat ≠ classify c q (q.getLast?.getD "") →
        joinPath q ∉ catFiles cat (readNodeJSPackage c reldir pj (.dir rn false es)) := by
      intro cat hne hmem
      rw [hfold] at hmem
      rcases List.mem_map.mp hmem with ⟨f, hf, hjoin⟩
      rcases List.mem_filter.mp hf with ⟨hfcol, hfcat⟩
      rcases (nodeCollect_mem _ hwf f).mp hfcol with ⟨q', he', rfl⟩
      have hcp' : checkPath q' es = true := by
        simp only [eligible, Bool.and_eq_true] at he'
        exact he'.2
      obtain ⟨hq'ne, hq'ns⟩ := checkPath_segments q' es hwfl hcp'
      have hqq : q' = q := joinPath_inj q' q hq'ne hqne hq'ns hqns hjoin
      subst hqq
      rw [beq_iff_eq] at hfcat
      exact hne hfcat.symm
    have hp : ∀ cat ∈ allCategories,
        contains
            (catFiles cat (readNodeJSPackage c reldir pj (.dir rn false es)))
            (joinPath q)
          = decide (cat = classify c q (q.getLast?.getD "")) := by
      intro cat _
      by_cases hc : cat = classify c q (q.getLast?.getD "")
      · subst hc
        rw [(contains_iff_mem _ _).mpr hin]
        simp
      · have hcf : contains
            (catFiles cat (readNodeJSPackage c reldir pj (.dir rn false es)))
            (joinPath q) = false := by
          cases hcc : contains
              (catFiles cat (readNodeJSPackage c reldir pj (.dir rn false es)))
              (joinPath q) with
          | false => rfl
          | true => exact absurd ((contains_iff_mem _ _).mp hcc) (hnotin cat hc)
        rw [hcf]
        simp [hc]
    rw [listsContaining, List.filter_congr hp]
    exact countCategories_eq_one _

/-- C2 (confirmed).  General part: in any configuration, every eligible
`.js` file path of a well-formed package tree — a path to a regular `.js`
file passing through no `node_modules` directory and through no
sub-directory (other than the root) containing `package.json` — appears in
exactly one of the seven category lists of the populated package.  Concrete
part: for the specification's example tree under the default configuration,
the populated package carries exactly the claimed four lists (the other
three are empty), so the lists partition the full eligible `.js` file set
with no overlaps and no omissions. -/
theorem nodeJS_category_partition :
    (∀ (c : NodeJSPackageConfig) (reldir pj : String) (root : FSNode) (q : List String),
      wfNode root = true → eligible root q = true →
      listsContaining (readNodeJSPackage c reldir pj root) (joinPath q) = 1)
    ∧ ∀ pj, readNodeJSPackage Default.NodeJSPackage "node.js" pj exTree =
        { Dir := "node.js", PackageJSON := some pj,
          LibFiles := ["a.js", "lib/a.js"],
          ScriptFiles := [], SupportFiles := [], ExampleFiles := [],
          TestFiles := ["a_test.js", "test/b.js"],
          VendorFiles := ["vendor/a.js"],
          GeneratedFiles := ["a.min.js", "dist/a.js"] } := by
  constructor
  · intro c reldir pj root q hwf he
    exact eligible_exactly_one c reldir pj root hwf q he
  · intro pj
    rfl

/-- Witness for the partition theorem: the example tree is well-formed, the
path `lib/a.js` is eligible, and it indeed lies in exactly one category
list. -/
theorem nodeJS_category_partition_witness :
    wfNode exTree = true ∧ eligible exTree ["lib", "a.js"] = true
      ∧ listsContaining (readNodeJSPackage Default.NodeJSPackage "node.js" "x" exTree)
          (joinPath ["lib", "a.js"]) = 1 :=
  ⟨by decide, by decide,
    nodeJS_category_partition.1 Default.NodeJSPackage "node.js" "x" exTree ["lib", "a.js"]
      (by decide) (by decide)⟩

/-! ## Serialization round trip -/

theorem decodeStrs_map (l : List String) : decodeStrs (l.map .str) = some l := by
  induction l with
  | nil => rfl
  | cons a as ih => simp [decodeStrs, ih]

theorem decodeStrList_encodeStrList (l : List String) :
    decodeStrList (encodeStrList l) = some l := by
  simp [encodeStrList, decodeStrList, decodeStrs_map]

theorem decodePosPairs_map (m : List (String × Int)) :
    decodePosPairs (m.map (fun kv => (kv.1, Json.num kv.2))) = some m := by
  induction m with
  | nil => rfl
  | cons kv m ih => simp [decodePosPairs, ih]

theorem jlookup_nil (key : String) : jlookup [] key = none := rfl

theorem jlookup_skip_pair (k : String) (v : Json) (rest : List (String × Json)) (key : String)
    (hk : (k == key) = false) : jlookup ((k, v) :: rest) key = jlookup rest key := by
  simp [jlookup, hk]

theorem jlookup_self_pair (k : String) (v : Json) (rest : List (String × Json)) :
    jlookup ((k, v) :: rest) k = some v := by
  simp [jlookup]

theorem jlookup_skip_optStrList (k : String) (l : List String) (rest : List (String × Json))
    (key : String) (hk : (k == key) = false) :
    jlookup (optStrList k l ++ rest) key = jlookup rest key := by
  by_cases hl : l.isEmpty <;> simp [optStrList, hl, jlookup, hk]

theorem jlookup_skip_optRaw (k : String) (v : Option String) (rest : List (String × Json))
    (key : String) (hk : (k == key) = false) :
    jlookup (optRaw k v ++ rest) key = jlookup rest key := by
  cases v <;> simp [optRaw, jlookup, hk]

theorem jlookup_optStrList_self (key : String) (l : List String) (rest : List (String × Json))
    (hrest : jlookup rest key = none) :
    jlookup (optStrList key l ++ rest) key =
      if l.isEmpty then none else some (encodeStrList l) := by
  by_cases hl : l.isEmpty <;> simp [optStrList, hl, jlookup, hrest]

theorem jlookup_optRaw_self (key : String) (v : Option String) (rest : List (String × Json))
    (hrest : jlookup rest key = none) :
    jlookup (optRaw key v ++ rest) key = v.map .raw := by
  cases v <;> simp [optRaw, jlookup, hrest]

theorem jlookup_last_optStrList (k : String) (l : List String) (key : String)
    (hk : (k == key) = false) : jlookup (optStrList k l) key = none := by
  by_cases hl : l.isEmpty <;> simp [optStrList, hl, jlookup, hk]

theorem decodeStrField_of (fields : List (String × Json)) (key s : String)
    (h : jlookup fields key = some (.str s)) : decodeStrField fields key = some s := by
  unfold decodeStrField
  rw [h]

theorem decodeListField_of (fields : List (String × Json)) (key : String) (l : List String)
    (h : jlookup fields key = some (encodeStrList l)) : decodeListField fields key = some l := by
  unfold decodeListField
  rw [h]
  simp [encodeStrList, decodeStrList, decodeStrs_map]

theorem decodeListField_ite (fields : List (String × Json)) (key : String) (l : List String)
    (h : jlookup fields key = if l.isEmpty then none else some (encodeStrList l)) :
    decodeListField fields key = some l := by
  by_cases hl : l.isEmpty
  · rw [hl] at h
    simp only [if_true] at h
    unfold decodeListField
    rw [h]
    have : l = [] := by simpa using hl
    rw [this]
  · rw [if_neg (by simp [hl])] at h
    exact decodeListField_of fields key l h

theorem decodeRawField_of (fields : List (String × Json)) (key : String) (v : Option String)
    (h : jlookup fields key = v.map .raw) : decodeRawField fields key = some v := by
  unfold decodeRawField
  cases v <;> rw [h] <;> rfl

theorem decodePosMapField_of (fields : List (String × Json)) (key : String)
    (v : Option (List (String × Int)))
    (h : jlookup fields key = some (encodePosMap v)) : decodePosMapField fields key = some v := by
  unfold decodePosMapField
  rw [h]
  cases v with
  | none => rfl
  | some m => simp [encodePosMap, decodePosPairs_map]

theorem jlookup_optStrList_self_last (key : String) (l : List String) :
    jlookup (optStrList key l) key = if l.isEmpty then none else some (encodeStrList l) := by
  by_cases hl : l.isEmpty <;> simp [optStrList, hl, jlookup]

theorem decode_encode_goPackage (u : GoPackage) :
    decodeGoPackage (encodeGoPackage u) = some u := by
  rcases u with ⟨d, nm, ip, rt, srt, prt, bd, gf, tgf, xtgf, im, tim, xtim, ipos, tipos, xtipos⟩
  simp only [decodeGoPackage, encodeGoPackage]
  rw [decodeStrField_of _ "Dir" d (by rfl),
    decodeStrField_of _ "Name" nm (by rfl),
    decodeStrField_of _ "ImportPath" ip (by rfl),
    decodeStrField_of _ "Root" rt (by rfl),
    decodeStrField_of _ "SrcRoot" srt (by rfl),
    decodeStrField_of _ "PkgRoot" prt (by rfl),
    decodeStrField_of _ "BinDir" bd (by rfl),
    decodeListField_of _ "GoFiles" gf (by rfl),
    decodeListField_of _ "TestGoFiles" tgf (by rfl),
    decodeListField_of _ "XTestGoFiles" xtgf (by rfl),
    decodeListField_of _ "Imports" im (by rfl),
    decodeListField_of _ "TestImports" tim (by rfl),
    decodeListField_of _ "XTestImports" xtim (by rfl),
    decodePosMapField_of _ "ImportPos" ipos (by rfl),
    decodePosMapField_of _ "TestImportPos" tipos (by rfl),
    decodePosMapField_of _ "XTestImportPos" xtipos (by rfl)]
  rfl

theorem decode_encode_nodeJS (u : NodeJSPackage) :
    decodeNodeJSPackage (encodeNodeJSPackage u) = some u := by
  rcases u with ⟨dir, pj, lib, script, support, ex, tst, vnd, gen⟩
  simp only [decodeNodeJSPackage, encodeNodeJSPackage, List.append_assoc, List.singleton_append,
    List.cons_append, List.nil_append]
  rw [decodeStrField_of _ "Dir" dir (by rfl),
    decodeRawField_of _ "PackageJSON" pj
      (by rw [jlookup_skip_pair _ _ _ _ (by rfl)]
          rw [jlookup_optRaw_self _ _ _
            (by rw [jlookup_skip_optStrList _ _ _ _ (by rfl),
              jlookup_skip_optStrList _ _ _ _ (by rfl), jlookup_skip_optStrList _ _ _ _ (by rfl),
              jlookup_skip_optStrList _ _ _ _ (by rfl), jlookup_skip_optStrList _ _ _ _ (by rfl),
              jlookup_skip_optStrList _ _ _ _ (by rfl),
              jlookup_last_optStrList _ _ _ (by rfl)])]),
    decodeListField_ite _ "LibFiles" lib
      (by rw [jlookup_skip_pair _ _ _ _ (by rfl), jlookup_skip_optRaw _ _ _ _ (by rfl)]
          rw [jlookup_optStrList_self _ _ _
            (by rw [jlookup_skip_optStrList _ _ _ _ (by rfl),
              jlookup_skip_optStrList _ _ _ _ (by rfl), jlookup_skip_optStrList _ _ _ _ (by rfl),
              jlookup_skip_optStrList _ _ _ _ (by rfl), jlookup_skip_optStrList _ _ _ _ (by rfl),
              jlookup_last_optStrList _ _ _ (by rfl)])]),
    decodeListField_ite _ "ScriptFiles" script
      (by rw [jlookup_skip_pair _ _ _ _ (by rfl), jlookup_skip_optRaw _ _ _ _ (by rfl),
            jlookup_skip_optStrList _ _ _ _ (by rfl)]
          rw [jlookup_optStrList_self _ _ _
            (by rw [jlookup_skip_optStrList _ _ _ _ (by rfl),
              jlookup_skip_optStrList _ _ _ _ (by rfl), jlookup_skip_optStrList _ _ _ _ (by rfl),
              jlookup_skip_optStrList _ _ _ _ (by rfl),
              jlookup_last_optStrList _ _ _ (by rfl)])]),
    decodeListField_ite _ "SupportFiles" support
      (by rw [jlookup_skip_pair _ _ _ _ (by rfl), jlookup_skip_optRaw _ _ _ _ (by rfl),
            jlookup_skip_optStrList _ _ _ _ (by rfl), jlookup_skip_optStrList _ _ _ _ (by rfl)]
          rw [jlookup_optStrList_self _ _ _
            (by rw [jlookup_skip_optStrList _ _ _ _ (by rfl),
              jlookup_skip_optStrList _ _ _ _ (by rfl), jlookup_skip_optStrList _ _ _ _ (by rfl),
              jlookup_last_optStrList _ _ _ (by rfl)])]),
    decodeListField_ite _ "ExampleFiles" ex
      (by rw [jlookup_skip_pair _ _ _ _ (by rfl), jlookup_skip_optRaw _ _ _ _ (by rfl),
            jlookup_skip_optStrList _ _ _ _ (by rfl), jlookup_skip_optStrList _ _ _ _ (by rfl),
            jlookup_skip_optStrList _ _ _ _ (by rfl)]
          rw [jlookup_optStrList_self _ _ _
            (by rw [jlookup_skip_optStrList _ _ _ _ (by rfl),
              jlookup_skip_optStrList _ _ _ _ (by rfl),
              jlookup_last_optStrList _ _ _ (by rfl)])]),
    decodeListField_ite _ "TestFiles" tst
      (by rw [jlookup_skip_pair _ _ _ _ (by rfl), jlookup_skip_optRaw _ _ _ _ (by rfl),
            jlookup_skip_optStrList _ _ _ _ (by rfl), jlookup_skip_optStrList _ _ _ _ (by rfl),
            jlookup_skip_optStrList _ _ _ _ (by rfl), jlookup_skip_optStrList _ _ _ _ (by rfl)]
          rw [jlookup_optStrList_self _ _ _
            (by rw [jlookup_skip_optStrList _ _ _ _ (by rfl),
              jlookup_last_optStrList _ _ _ (by rfl)])]),
    decodeListField_ite _ "VendorFiles" vnd
      (by rw [jlookup_skip_pair _ _ _ _ (by rfl), jlookup_skip_optRaw _ _ _ _ (by rfl),
            jlookup_skip_optStrList _ _ _ _ (by rfl), jlookup_skip_optStrList _ _ _ _ (by rfl),
            jlookup_skip_optStrList _ _ _ _ (by rfl), jlookup_skip_optStrList _ _ _ _ (by rfl),
            jlookup_skip_optStrList _ _ _ _ (by rfl)]
          rw [jlookup_optStrList_self _ _ _ (jlookup_last_optStrList _ _ _ (by rfl))]),
    decodeListField_ite _ "GeneratedFiles" gen
      (by rw [jlookup_skip_pair _ _ _ _ (by rfl), jlookup_skip_optRaw _ _ _ _ (by rfl),
            jlookup_skip_optStrList _ _ _ _ (by rfl), jlookup_skip_optStrList _ _ _ _ (by rfl),
            jlookup_skip_optStrList _ _ _ _ (by rfl), jlookup_skip_optStrList _ _ _ _ (by rfl),
            jlookup_skip_optStrList _ _ _ _ (by rfl), jlookup_skip_optStrList _ _ _ _ (by rfl)]
          rw [jlookup_optStrList_self_last])]
  rfl

theorem decode_encode_pythonPackage (u : PythonPackage) :
    decodePythonPackage (encodePythonPackage u) = some u := by
  rcases u with ⟨dir⟩
  simp only [decodePythonPackage, encodePythonPackage]
  rw [decodeStrField_of _ "Dir" dir (by rfl)]
  rfl

theorem decode_encode_pythonModule (u : PythonModule) :
    decodePythonModule (encodePythonModule u) = some u := by
  rcases u with ⟨f⟩
  simp only [decodePythonModule, encodePythonModule]
  rw [decodeStrField_of _ "File" f (by rfl)]
  rfl

theorem decode_encode_rubyGem (u : RubyGem) :
    decodeRubyGem (encodeRubyGem u) = some u := by
  rcases u with ⟨dir, src, tst⟩
  simp only [decodeRubyGem, encodeRubyGem]
  rw [decodeStrField_of _ "Dir" dir (by rfl),
    decodeListField_of _ "SrcFiles" src (by rfl),
    decodeListField_of _ "TestFiles" tst (by rfl)]
  rfl

theorem decode_encode_rubyApp (u : RubyApp) :
    decodeRubyApp (encodeRubyApp u) = some u := by
  rcases u with ⟨dir, src, tst⟩
  simp only [decodeRubyApp, encodeRubyApp]
  rw [decodeStrField_of _ "Dir" dir (by rfl),
    decodeListField_of _ "SrcFiles" src (by rfl),
    decodeListField_of _ "TestFiles" tst (by rfl)]
  rfl

theorem decode_encode_javaProject (u : JavaProject) :
    decodeJavaProject (encodeJavaProject u) = some u := by
  rcases u with ⟨dir, cp, src, tst⟩
  simp only [decodeJavaProject, encodeJavaProject]
  rw [decodeStrField_of _ "Dir" dir (by rfl),
    decodeStrField_of _ "ProjectClasspath" cp (by rfl),
    decodeListField_of _ "SrcFiles" src (by rfl),
    decodeListField_of _ "TestFiles" tst (by rfl)]
  rfl

theorem unmarshal_marshal (u : Unit') :
    UnmarshalJSON (encodeUnit u) (UnitType u) = Except.ok u := by
  cases u with
  | nodeJS x =>
    simp [UnitType, encodeUnit, UnmarshalJSON, decode_encode_nodeJS, decodedUnit]
  | goPkg x =>
    simp [UnitType, encodeUnit, UnmarshalJSON, decode_encode_goPackage, decodedUnit]
  | python x =>
    simp [UnitType, encodeUnit, UnmarshalJSON, decode_encode_pythonPackage, decodedUnit]
  | pythonMod x =>
    simp [UnitType, encodeUnit, UnmarshalJSON, decode_encode_pythonModule, decodedUnit]
  | rubyGem x =>
    simp [UnitType, encodeUnit, UnmarshalJSON, decode_encode_rubyGem, decodedUnit]
  | rubyApp x =>
    simp [UnitType, encodeUnit, UnmarshalJSON, decode_encode_rubyApp, decodedUnit]
  | javaProj x =>
    simp [UnitType, encodeUnit, UnmarshalJSON, decode_encode_javaProject, decodedUnit]

/-- C7 (confirmed): serializing any unit through `MarshalableUnit` (tagging
it with its variant name) and deserializing the payload with that same tag
reconstructs a unit equal in every attribute; dispatching on a tag outside
the seven known variant names yields the unhandled-source-unit-type
error. -/
theorem unit_serialization_roundtrip :
    (∀ u : Unit', unmarshalMarshalableUnit (marshalMarshalableUnit u) = Except.ok u)
    ∧ (∀ u : Unit', UnmarshalJSON (encodeUnit u) (UnitType u) = Except.ok u)
    ∧ (∀ (data : Json) (t : String), t ∉ knownUnitTypes →
        UnmarshalJSON data t = Except.error ("unhandled source unit type: " ++ t)) := by
  refine ⟨?_, unmarshal_marshal, ?_⟩
  · intro u
    show UnmarshalJSON (encodeUnit u) (UnitType u) = Except.ok u
    exact unmarshal_marshal u
  · intro data t ht
    have h : t ≠ "NodeJSPackage" ∧ t ≠ "GoPackage" ∧ t ≠ "PythonPackage"
        ∧ t ≠ "PythonModule" ∧ t ≠ "RubyApp" ∧ t ≠ "RubyGem" ∧ t ≠ "JavaProject" := by
      simpa [knownUnitTypes, not_or] using ht
    obtain ⟨h1, h2, h3, h4, h5, h6, h7⟩ := h
    simp [UnmarshalJSON, h1, h2, h3, h4, h5, h6, h7]

/-- Witness: a tag outside the seven variant names errors; shown at the tag
"BowerComponent". -/
theorem unit_serialization_roundtrip_witness :
    "BowerComponent" ∉ knownUnitTypes
      ∧ UnmarshalJSON Json.null "BowerComponent"
          = Except.error "unhandled source unit type: BowerComponent" :=
  ⟨by decide,
    unit_serialization_roundtrip.2.2 Json.null "BowerComponent" (by decide)⟩

/-! ## The scan engine and `node_modules` -/

theorem Scan_components (sk : List String) (profiles : List Profile) (root : FSNode) :
    (Scan sk profiles root).units =
        (profiles.map (fun p => (walkNode sk p true [root.name] root).units)).flatten
      ∧ (Scan sk profiles root).descended =
          (profiles.map (fun p => (walkNode sk p true [root.name] root).descended)).flatten
      ∧ (Scan sk profiles root).err =
          ((profiles.getLast?).map
            (fun p => (walkNode sk p true [root.name] root).err)).getD none := by
  induction profiles using List.reverseRecOn with
  | nil => simp [Scan]
  | append_singleton ps p ih =>
    unfold Scan at *
    rw [List.foldl_append]
    refine ⟨?_, ?_, ?_⟩
    · simp only [List.foldl_cons, List.foldl_nil, List.map_append, List.flatten_append,
        List.map_cons, List.map_nil, List.flatten_cons, List.flatten_nil, List.append_nil]
      rw [ih.1]
    · simp only [List.foldl_cons, List.foldl_nil, List.map_append, List.flatten_append,
        List.map_cons, List.map_nil, List.flatten_cons, List.flatten_nil, List.append_nil]
      rw [ih.2.1]
    · simp

mutual
/-- Directories descended into below a non-root node extend its path by
segments that are never in the skip list; and none are descended when the
node's own name is skipped. -/
theorem walkNode_desc_inv (sk : List String) (p : Profile) (path : List String) (e : FSNode) :
    ∀ d ∈ (walkNode sk p false path e).descended,
      contains sk e.name = false ∧ ∃ q, d = path ++ q ∧ ∀ s ∈ q, contains sk s = false := by
  cases e with
  | file n =>
    intro d hd
    rcases hfm : p.File with _ | fm
    · simp [walkNode, hfm] at hd
    · by_cases hm : fm.matches (joinPath path) = true <;> simp [walkNode, hfm, hm] at hd
  | dir n rerr es =>
    intro d hd
    by_cases hskip : contains sk n = true
    · simp [walkNode, hskip] at hd
    · by_cases hre : rerr
      · simp [walkNode, hskip, hre] at hd
      · simp only [walkNode, hskip, hre, Bool.not_false, Bool.and_true, Bool.true_and,
          Bool.not_true, Bool.false_and, Bool.false_eq_true, if_false] at hd
        rcases hmt : (match p.Dir with
          | some dm => dm.matches (namesOf es)
          | none => false) && p.TopLevelOnly with _ | _
        · rw [hmt] at hd
          simp only [if_false, Bool.false_eq_true, List.mem_cons] at hd
          rcases hd with rfl | hd
          · exact ⟨by simp [FSNode.name, hskip], [], by simp, by simp⟩
          · rcases walkEntries_desc_inv sk p path es d hd with ⟨q, rfl, _, hclean⟩
            exact ⟨by simp [FSNode.name, hskip], q, rfl, hclean⟩
        · rw [hmt] at hd
          simp at hd

/-- Directories descended into below a list of sibling entries extend the
parent path by a nonempty run of never-skipped segments. -/
theorem walkEntries_desc_inv (sk : List String) (p : Profile) (path : List String)
    (es : List FSNode) :
    ∀ d ∈ (walkEntries sk p path es).descended,
      ∃ q, d = path ++ q ∧ q ≠ [] ∧ ∀ s ∈ q, contains sk s = false := by
  cases es with
  | nil => intro d hd; simp [walkEntries] at hd
  | cons e es' =>
    intro d hd
    rw [walkEntries] at hd
    rcases herr : (walkNode sk p false (path ++ [e.name]) e).err with _ | msg
    · rw [herr] at hd
      simp only [List.mem_append] at hd
      rcases hd with hd | hd
      · rcases walkNode_desc_inv sk p (path ++ [e.name]) e d hd with ⟨hname, q, rfl, hclean⟩
        refine ⟨e.name :: q, by simp, by simp, ?_⟩
        intro s hs
        rcases List.mem_cons.mp hs with rfl | hs'
        · exact hname
        · exact hclean s hs'
      · exact walkEntries_desc_inv sk p path es' d hd
    · rw [herr] at hd
      rcases walkNode_desc_inv sk p (path ++ [e.name]) e d hd with ⟨hname, q, rfl, hclean⟩
      refine ⟨e.name :: q, by simp, by simp, ?_⟩
      intro s hs
      rcases List.mem_cons.mp hs with rfl | hs'
      · exact hname
      · exact hclean s hs'
end

mutual
/-- Units emitted below a non-root node sit at its path extended by
segments all of which, except possibly the final one, are never in the skip
list; a nonempty extension implies the node itself is not skipped. -/
theorem walkNode_units_inv (sk : List String) (p : Profile) (path : List String) (e : FSNode) :
    ∀ pu ∈ (walkNode sk p false path e).units,
      ∃ q, pu.1 = path ++ q ∧ (∀ s ∈ q.dropLast, contains sk s = false)
        ∧ (q ≠ [] → contains sk e.name = false) := by
  cases e with
  | file n =>
    intro pu hpu
    rcases hfm : p.File with _ | fm
    · simp [walkNode, hfm] at hpu
    · by_cases hm : fm.matches (joinPath path) = true
      · simp only [walkNode, hfm, hm, if_true, List.mem_singleton] at hpu
        subst hpu
        exact ⟨[], by simp, by simp, by simp⟩
      · simp [walkNode, hfm, hm] at hpu
  | dir n rerr es =>
    intro pu hpu
    by_cases hskip : contains sk n = true
    · simp [walkNode, hskip] at hpu
    · by_cases hre : rerr
      · simp [walkNode, hskip, hre] at hpu
      · simp only [walkNode, hskip, hre, Bool.not_false, Bool.and_true, Bool.true_and,
          Bool.not_true, Bool.false_and, Bool.false_eq_true, if_false] at hpu
        rcases hmt : (match p.Dir with
          | some dm => dm.matches (namesOf es)
          | none => false) && p.TopLevelOnly with _ | _
        · rw [hmt] at hpu
          simp only [if_false, Bool.false_eq_true, List.mem_append] at hpu
          rcases hpu with hpu | hpu
          · rcases hmm : (match p.Dir with
              | some dm => dm.matches (namesOf es)
              | none => false) with _ | _
            · rw [hmm] at hpu
              simp at hpu
            · rw [hmm] at hpu
              simp at hpu
              subst hpu
              exact ⟨[], by simp, by simp, by simp⟩
          · rcases walkEntries_units_inv sk p path es pu hpu with ⟨q, hq, hne, hclean⟩
            exact ⟨q, hq, hclean, fun _ => by simp [FSNode.name, hskip]⟩
        · have hmm : (match p.Dir with
            | some dm => dm.matches (namesOf es)
            | none => false) = true := by
            have h := hmt
            simp only [Bool.and_eq_true] at h
            exact h.1
          rw [hmt, hmm] at hpu
          simp at hpu
          subst hpu
          exact ⟨[], by simp, by simp, by simp⟩

/-- Units emitted below a list of sibling entries extend the parent path by
a nonempty run whose segments, except possibly the last, are never
skipped. -/
theorem walkEntries_units_inv (sk : List String) (p : Profile) (path : List String)
    (es : List FSNode) :
    ∀ pu ∈ (walkEntries sk p path es).units,
      ∃ q, pu.1 = path ++ q ∧ q ≠ [] ∧ ∀ s ∈ q.dropLast, contains sk s = false := by
  cases es with
  | nil => intro pu hpu; simp [walkEntries] at hpu
  | cons e es' =>
    intro pu hpu
    rw [walkEntries] at hpu
    rcases herr : (walkNode sk p false (path ++ [e.name]) e).err with _ | msg
    · rw [herr] at hpu
      simp only [List.mem_append] at hpu
      rcases hpu with hpu | hpu
      · rcases walkNode_units_inv sk p (path ++ [e.name]) e pu hpu with ⟨q, hq, hclean, hne⟩
        refine ⟨e.name :: q, by simp [hq], by simp, ?_⟩
        cases q with
        | nil => simp
        | cons a t =>
          intro s hs
          rw [show (e.name :: a :: t).dropLast = e.name :: (a :: t).dropLast from rfl] at hs
          rcases List.mem_cons.mp hs with rfl | hs'
          · exact hne (by simp)
          · exact hclean s hs'
      · exact walkEntries_units_inv sk p path es' pu hpu
    · rw [herr] at hpu
      rcases walkNode_units_inv sk p (path ++ [e.name]) e pu hpu with ⟨q, hq, hclean, hne⟩
      refine ⟨e.name :: q, by simp [hq], by simp, ?_⟩
      cases q with
      | nil => simp
      | cons a t =>
        intro s hs
        rw [show (e.name :: a :: t).dropLast = e.name :: (a :: t).dropLast from rfl] at hs
        rcases List.mem_cons.mp hs with rfl | hs'
        · exact hne (by simp)
        · exact hclean s hs'
end

theorem getLast?_mem' {α : Type} {l : List α} {a : α} (h : l.getLast? = some a) : a ∈ l := by
  induction l with
  | nil => cases h
  | cons x t ih =>
    cases t with
    | nil =>
      simp only [List.getLast?_singleton, Option.some.injEq] at h
      simp [h]
    | cons y t' =>
      rw [List.getLast?_cons_cons] at h
      exact List.mem_cons_of_mem x (ih h)

/-- Every directory the root walk descends into is the root itself or the
root path extended by never-skipped segments. -/
theorem walkNode_root_desc (sk : List String) (p : Profile) (root : FSNode)
    (d : List String) (hd : d ∈ (walkNode sk p true [root.name] root).descended) :
    d = [root.name] ∨ ∃ q, d = root.name :: q ∧ q ≠ [] ∧ ∀ s ∈ q, contains sk s = false := by
  cases root with
  | file n =>
    rcases hfm : p.File with _ | fm
    · simp [walkNode, hfm] at hd
    · by_cases hm : fm.matches (joinPath [FSNode.name (FSNode.file n)]) = true <;>
        simp [walkNode, hfm, hm] at hd
  | dir n rerr es =>
    by_cases hre : rerr = true
    · simp [walkNode, hre] at hd
    · simp only [walkNode, Bool.not_true, Bool.false_and, Bool.false_eq_true, if_false,
        hre, FSNode.name] at hd
      rcases hmt : (match p.Dir with
        | some dm => dm.matches (namesOf es)
        | none => false) && p.TopLevelOnly with _ | _
      · rw [hmt] at hd
        simp only [Bool.false_eq_true, if_false, List.mem_cons] at hd
        rcases hd with rfl | hd
        · exact Or.inl rfl
        · rcases walkEntries_desc_inv sk p [n] es d hd with ⟨q, rfl, hne, hclean⟩
          exact Or.inr ⟨q, rfl, hne, hclean⟩
      · rw [hmt] at hd
        simp at hd

/-- Every unit the root walk emits sits at the root path extended by
segments all of which, except possibly the final one, are never skipped. -/
theorem walkNode_root_units (sk : List String) (p : Profile) (root : FSNode)
    (pu : List String × Unit') (hpu : pu ∈ (walkNode sk p true [root.name] root).units) :
    ∃ q, pu.1 = root.name :: q ∧ ∀ s ∈ q.dropLast, contains sk s = false := by
  cases root with
  | file n =>
    rcases hfm : p.File with _ | fm
    · simp [walkNode, hfm] at hpu
    · by_cases hm : fm.matches (joinPath [FSNode.name (FSNode.file n)]) = true
      · simp only [walkNode, hfm, hm, if_true, List.mem_singleton] at hpu
        subst hpu
        exact ⟨[], rfl, by simp⟩
      · simp [walkNode, hfm, hm] at hpu
  | dir n rerr es =>
    by_cases hre : rerr = true
    · simp [walkNode, hre] at hpu
    · simp only [walkNode, Bool.not_true, Bool.false_and, Bool.false_eq_true, if_false,
        hre, FSNode.name] at hpu
      rcases hmt : (match p.Dir with
        | some dm => dm.matches (namesOf es)
        | none => false) && p.TopLevelOnly with _ | _
      · rw [hmt] at hpu
        simp only [Bool.false_eq_true, if_false, List.mem_append] at hpu
        rcases hpu with hpu | hpu
        · rcases hmm : (match p.Dir with
            | some dm => dm.matches (namesOf es)
            | none => false) with _ | _
          · rw [hmm] at hpu
            simp at hpu
          · rw [hmm] at hpu
            simp at hpu
            subst hpu
            exact ⟨[], rfl, by simp⟩
        · rcases walkEntries_units_inv sk p [n] es pu hpu with ⟨q, hq, hne, hclean⟩
          exact ⟨q, hq, hclean⟩
      · have hmm : (match p.Dir with
          | some dm => dm.matches (namesOf es)
          | none => false) = true := by
          have h := hmt
          simp only [Bool.and_eq_true] at h
          exact h.1
        rw [hmt, hmm] at hpu
        simp at hpu
        subst hpu
        exact ⟨[], rfl, by simp⟩

mutual
/-- Every unit emitted by a walk is constructed by the profile's `Unit`
function at the path recorded with it. -/
theorem walkNode_units_src (sk : List String) (p : Profile) (b : Bool) (path : List String)
    (e : FSNode) :
    ∀ pu ∈ (walkNode sk p b path e).units, ∃ node, pu.2 = p.Unit pu.1 node := by
  cases e with
  | file n =>
    intro pu hpu
    rcases hfm : p.File with _ | fm
    · simp [walkNode, hfm] at hpu
    · by_cases hm : fm.matches (joinPath path) = true
      · simp only [walkNode, hfm, hm, if_true, List.mem_singleton] at hpu
        subst hpu
        exact ⟨.file n, rfl⟩
      · simp [walkNode, hfm, hm] at hpu
  | dir n rerr es =>
    intro pu hpu
    by_cases hskip : (!b && contains sk n) = true
    · simp [walkNode, hskip] at hpu
    · by_cases hre : rerr = true
      · simp only [walkNode, hskip, Bool.false_eq_true, if_false, hre, if_true] at hpu
        simp at hpu
      · simp only [walkNode, hskip, Bool.false_eq_true, if_false, hre] at hpu
        rcases hmt : (match p.Dir with
          | some dm => dm.matches (namesOf es)
          | none => false) && p.TopLevelOnly with _ | _
        · rw [hmt] at hpu
          simp only [Bool.false_eq_true, if_false, List.mem_append] at hpu
          rcases hpu with hpu | hpu
          · rcases hmm : (match p.Dir with
              | some dm => dm.matches (namesOf es)
              | none => false) with _ | _
            · rw [hmm] at hpu
              simp at hpu
            · rw [hmm] at hpu
              simp at hpu
              subst hpu
              exact ⟨.dir n false es, rfl⟩
          · exact walkEntries_units_src sk p path es pu hpu
        · have hmm : (match p.Dir with
            | some dm => dm.matches (namesOf es)
            | none => false) = true := by
            have h := hmt
            simp only [Bool.and_eq_true] at h
            exact h.1
          rw [hmt, hmm] at hpu
          simp at hpu
          subst hpu
          exact ⟨.dir n false es, rfl⟩

/-- Entries version of `walkNode_units_src`. -/
theorem walkEntries_units_src (sk : List String) (p : Profile) (path : List String)
    (es : List FSNode) :
    ∀ pu ∈ (walkEntries sk p path es).units, ∃ node, pu.2 = p.Unit pu.1 node := by
  cases es with
  | nil => intro pu hpu; simp [walkEntries] at hpu
  | cons e es' =>
    intro pu hpu
    rw [walkEntries] at hpu
    rcases herr : (walkNode sk p false (path ++ [e.name]) e).err with _ | msg
    · rw [herr] at hpu
      simp only [List.mem_append] at hpu
      rcases hpu with hpu | hpu
      · exact walkNode_units_src sk p false (path ++ [e.name]) e pu hpu
      · exact walkEntries_units_src sk p path es' pu hpu
    · rw [herr] at hpu
      exact walkNode_units_src sk p false (path ++ [e.name]) e pu hpu
end

theorem foldl_addJSFile_Dir (c : NodeJSPackageConfig) (l : List (List String × String))
    (u : NodeJSPackage) : (l.foldl (addJSFile c) u).Dir = u.Dir := by
  induction l generalizing u with
  | nil => rfl
  | cons f l ih =>
    rw [List.foldl_cons, ih]
    cases hcl : classify c f.1 f.2 <;> simp [addJSFile, hcl]

theorem readNodeJSPackage_Dir (c : NodeJSPackageConfig) (reldir pj : String) (root : FSNode) :
    (readNodeJSPackage c reldir pj root).Dir = reldir := by
  unfold readNodeJSPackage
  rw [foldl_addJSFile_Dir]

/-- Every registry profile constructs its unit at the path the engine hands
it: the unit's own `Path()` is the joined walk path. -/
theorem allProfiles_unitPath (c : Config) (env : ScanEnv) (pr : Profile)
    (hpr : pr ∈ AllProfiles c env) (path : List String) (node : FSNode) :
    unitPath (pr.Unit path node) = joinPath path := by
  simp only [AllProfiles, List.mem_cons, List.not_mem_nil, or_false] at hpr
  rcases hpr with rfl | rfl | rfl | rfl | rfl | rfl | rfl
  · show unitPath (readNPMPackage c env path node) = joinPath path
    simp [readNPMPackage, unitPath, readNodeJSPackage_Dir]
  · show unitPath (readBowerComponent c env path node) = joinPath path
    simp [readBowerComponent, unitPath, readNodeJSPackage_Dir]
  · show unitPath (pythonProfile.Unit path node) = joinPath path
    simp only [pythonProfile]
    cases hn : node.isDir <;> simp [hn, unitPath]
  · rfl
  · rfl
  · rfl
  · rfl

mutual
/-- The populator walk never descends into a directory named
`node_modules`, below any entry. -/
theorem nodeDescEntry_not_nm (pfx : List String) (e : FSNode) :
    ∀ d ∈ nodeDescEntry pfx e, d.getLast? ≠ some "node_modules" := by
  match e with
  | .file n =>
    intro d hd
    simp [nodeDescEntry] at hd
  | .dir n rerr es =>
    intro d hd
    simp only [nodeDescEntry] at hd
    by_cases h1 : (n == "node_modules") = true
    · simp [h1] at hd
    · simp only [h1] at hd
      by_cases h2 : dirHasFile es "package.json" = true
      · simp [h2] at hd
      · simp only [h2] at hd
        by_cases h3 : rerr = true
        · simp [h3] at hd
        · simp only [h3, Bool.false_eq_true, if_false, List.mem_cons] at hd
          rcases hd with rfl | hd
          · rw [List.getLast?_concat]
            intro hc
            exact absurd (by simp [Option.some.injEq] at hc; simp [hc]) h1
          · exact nodeDescEntries_not_nm (pfx ++ [n]) es d hd

/-- Entries version. -/
theorem nodeDescEntries_not_nm (pfx : List String) (es : List FSNode) :
    ∀ d ∈ nodeDescEntries pfx es, d.getLast? ≠ some "node_modules" := by
  match es with
  | [] =>
    intro d hd
    simp [nodeDescEntries] at hd
  | e :: es =>
    intro d hd
    simp only [nodeDescEntries, List.mem_append] at hd
    rcases hd with hd | hd
    · exact nodeDescEntry_not_nm pfx e d hd
    · exact nodeDescEntries_not_nm pfx es d hd
end

/-- The populator walk (which consults no `SkipDirs` configuration at all)
never descends into a directory named `node_modules`, the root included. -/
theorem nodeDescends_not_nm (root : FSNode) :
    ∀ d ∈ nodeDescends root, d.getLast? ≠ some "node_modules" := by
  cases root with
  | file n => intro d hd; simp [nodeDescends] at hd
  | dir n rerr es =>
    intro d hd
    simp only [nodeDescends] at hd
    by_cases h1 : (n == "node_modules") = true
    · simp [h1] at hd
    · simp only [h1] at hd
      by_cases h3 : rerr = true
      · simp [h3] at hd
      · simp only [h3, Bool.false_eq_true, if_false, List.mem_cons] at hd
        rcases hd with rfl | hd
        · simp only [List.getLast?_singleton]
          intro hc
          exact absurd (by simp [Option.some.injEq] at hc; simp [hc]) h1
        · exact nodeDescEntries_not_nm [n] es d hd

/-- C6 (confirmed): under the default configuration (whose `SkipDirs`
contains `node_modules`), (i) the only directory named `node_modules` a
scan's engine walk can ever descend into is the scan root itself; (ii)
every emitted unit reports the engine's walk path as its own `Path()`, and
no emitted unit's path lies strictly inside a `node_modules` directory
below the root; and (iii) the Node.js populator's own subtree walk — which
reads no `SkipDirs` at all — never descends into a directory named
`node_modules`, for any tree whatsoever. -/
theorem scan_never_inside_node_modules :
    (∀ (env : ScanEnv) (root : FSNode) (d : List String),
        d ∈ (Scan Default.SkipDirs (AllProfiles Default env) root).descended →
        d.getLast? = some "node_modules" → d = [root.name])
    ∧ (∀ (env : ScanEnv) (root : FSNode) (pu : List String × Unit'),
        pu ∈ (Scan Default.SkipDirs (AllProfiles Default env) root).units →
        unitPath pu.2 = joinPath pu.1
          ∧ "node_modules" ∉ (pu.1.dropLast).drop 1)
    ∧ (∀ (root : FSNode) (d : List String),
        d ∈ nodeDescends root → d.getLast? ≠ some "node_modules") := by
  have hnm : "node_modules" ∈ Default.SkipDirs := by decide
  refine ⟨?_, ?_, fun root => nodeDescends_not_nm root⟩
  · intro env root d hd hlast
    rw [(Scan_components Default.SkipDirs (AllProfiles Default env) root).2.1] at hd
    rcases List.mem_flatten.mp hd with ⟨ds, hds, hdin⟩
    rcases List.mem_map.mp hds with ⟨p, _, rfl⟩
    rcases walkNode_root_desc Default.SkipDirs p root d hdin with rfl | ⟨q, rfl, hne, hclean⟩
    · rfl
    · exfalso
      rw [getLast?_cons_ne _ _ hne] at hlast
      have hin : "node_modules" ∈ q := getLast?_mem' hlast
      have := hclean "node_modules" hin
      rw [(contains_iff_mem _ _).mpr hnm] at this
      cases this
  · intro env root pu hpu
    rw [(Scan_components Default.SkipDirs (AllProfiles Default env) root).1] at hpu
    rcases List.mem_flatten.mp hpu with ⟨us, hus, huin⟩
    rcases List.mem_map.mp hus with ⟨p, hp, rfl⟩
    constructor
    · rcases walkNode_units_src Default.SkipDirs p true [root.name] root pu huin with ⟨node, hnode⟩
      rw [hnode, allProfiles_unitPath Default env p hp pu.1 node]
    · rcases walkNode_root_units Default.SkipDirs p root pu huin with ⟨q, hq, hclean⟩
      rw [hq]
      cases q with
      | nil => simp
      | cons a t =>
        rw [show (root.name :: a :: t).dropLast = root.name :: (a :: t).dropLast from rfl,
          List.drop_one, List.tail_cons]
        intro hmem
        have := hclean "node_modules" hmem
        rw [(contains_iff_mem _ _).mpr hnm] at this
        cases this

end Srcscan
